import Mathlib

/-!
Verification of the `@radically-straightforward/server` HTTP server
(`src/server/source/index.mts`) against its natural-language specification.

The development shallowly embeds the server's pure decision logic:

* `Server.Response` models a Node.js `http.ServerResponse` as seen by this
  code: status code, whether headers were flushed, the ordered list of body
  chunks written, and the `writableEnded` flag.  `Response.write` and
  `Response.endR` follow Node semantics: nothing is observable after
  `writableEnded` is set, and a second `end` is a no-op.
* The route dispatcher (`index.mts` lines 483-537) becomes
  `Server.dispatchGo` / `Server.dispatchPass`, with a ghost trace of the
  indices of the routes whose handler actually ran.
* The live-connection `response.end` override (lines 414-421) becomes
  `Server.liveConnectionEndOverride`.
* Cookie parsing (lines 137-148) and `setCookie` (lines 431-442) are embedded
  over lists of Unicode code points, together with executable models of the
  ECMAScript `encodeURIComponent` / `decodeURIComponent` builtins.
* The busboy-driven body ingestor (lines 161-243) becomes
  `Server.ingestBody`, consuming the stream of parser events.
* The live-connection registry (creation, reattachment, abandonment timer,
  lines 342-427 and 378-385) becomes a small state machine over
  `Server.Registry`.
-/

set_option autoImplicit false

namespace Server

/-! ## Response model (Node.js `http.ServerResponse`) -/

/-- Model of a Node.js server response: status code, whether the header block
was already flushed to the socket, the ordered body chunks written so far, the
`Content-Type` header, and the `writableEnded` flag. -/
structure Response where
  statusCode : Nat := 200
  headersSent : Bool := false
  contentType : Option String := none
  chunks : List String := []
  writableEnded : Bool := false
deriving Repr, DecidableEq

/-- A fresh response, as handed to the request listener. -/
def freshResponse : Response := {}

/-- Model of `response.write(data)`: after `end` the stream is closed and the
write errors without appending anything observable; otherwise the chunk is
appended and headers are flushed. -/
def Response.write (r : Response) (data : String) : Response :=
  if r.writableEnded then r
  else { r with headersSent := true, chunks := r.chunks ++ [data] }

/-- Model of `response.end(data?)`: a no-op if the response already ended,
otherwise the optional final chunk is written and `writableEnded` becomes
irrevocably true. -/
def Response.endR (r : Response) (data : Option String) : Response :=
  if r.writableEnded then r
  else
    { r with
      headersSent := true
      chunks := r.chunks ++ (match data with | some d => [d] | none => [])
      writableEnded := true }

/-- Model of `response.setHeader("Content-Type", ct)`. -/
def Response.setContentType (r : Response) (ct : String) : Response :=
  { r with contentType := ct }

/-! ## JSON string serialization (for live-connection pushes)

`JSON.stringify` applied to a string value, as used in the live-connection
`end` override (`JSON.stringify(data) + "\n"`, line 419). -/

/-- Escape of one character inside a JSON string literal. -/
def jsonEscapeChar (c : Char) : String :=
  if c = Char.ofNat 34 then String.mk [Char.ofNat 92, Char.ofNat 34]
  else if c = Char.ofNat 92 then String.mk [Char.ofNat 92, Char.ofNat 92]
  else if c = Char.ofNat 8 then String.mk [Char.ofNat 92, Char.ofNat 98]
  else if c = Char.ofNat 9 then String.mk [Char.ofNat 92, Char.ofNat 116]
  else if c = Char.ofNat 10 then String.mk [Char.ofNat 92, Char.ofNat 110]
  else if c = Char.ofNat 12 then String.mk [Char.ofNat 92, Char.ofNat 102]
  else if c = Char.ofNat 13 then String.mk [Char.ofNat 92, Char.ofNat 114]
  else if c.toNat < 32 then
    String.mk [Char.ofNat 92, Char.ofNat 117, Char.ofNat 48, Char.ofNat 48,
      Char.ofNat (if c.toNat / 16 < 10 then 48 + c.toNat / 16 else 87 + c.toNat / 16),
      Char.ofNat (if c.toNat % 16 < 10 then 48 + c.toNat % 16 else 87 + c.toNat % 16)]
  else String.mk [c]

/-- Model of `JSON.stringify` on a string value. -/
def jsonStringifyString (s : String) : String :=
  String.mk [Char.ofNat 34] ++ String.join (s.data.map jsonEscapeChar) ++ String.mk [Char.ofNat 34]

/-! ## Live-connection `end` override (lines 414-421)

When a request establishes a live connection, the server saves the real
`response.end` as `response.liveConnectionEnd` and replaces `response.end`
with a function that marks the *virtual* layer ended
(`liveConnection.writableEnded = true`) and, when given a string, writes one
JSON line to the still-open physical response. -/

/-- A response with a live connection attached: the physical response plus the
virtual `liveConnection.writableEnded` flag consulted by the dispatcher. -/
structure LiveResponse where
  response : Response
  lcWritableEnded : Bool := false
deriving Repr, DecidableEq

/-- Model of the overridden `response.end` installed while a live connection
is attached (lines 415-421): it never ends the physical stream; it sets the
virtual `writableEnded` flag and, for a string payload, writes
`JSON.stringify(data) + "\n"` to the physical response. -/
def liveConnectionEndOverride (s : LiveResponse) (data : Option String) : LiveResponse :=
  { lcWritableEnded := true
    response :=
      match data with
      | some d => s.response.write (jsonStringifyString d ++ String.mk [Char.ofNat 10])
      | none => s.response }

/-! ## Router / dispatcher (lines 483-537)

A route is `{ method?, pathname?, error?, handler }` (`index.mts` lines
11-19).  `method` is an exact string or a regular expression; regular
expressions are embedded as boolean match functions.  `pathname` is an exact
string or a regular expression producing named captures, embedded as a
function returning `none` (no match) or `some groups` (`match.groups ?? {}`).
Handlers receive the request context and response and return the mutated
context and response together with an optional thrown value (a JS handler can
mutate state before throwing).  A ghost trace of executed route indices is
threaded through the dispatcher. -/

/-- Model of `method: string | RegExp`. -/
inductive MethodMatcher where
  | str (s : String)
  | regex (test : String → Bool)

/-- Model of `pathname: string | RegExp`; a regular expression yields
`none` on no match, and `some groups` (the named captures, `match.groups ?? {}`)
on a match. -/
inductive PathnameMatcher where
  | str (s : String)
  | regex (test : String → Option (List (String × String)))

/-- Request context fields relevant to dispatch (`Request`, lines 21-35):
`pathname` holds the named captures of the matched route pattern, `state` is
reset per dispatch pass, `error` holds a value thrown by a handler. -/
structure Req (ε : Type) where
  method : String
  urlPathname : String
  pathCaptures : List (String × String) := []
  state : List (String × String) := []
  error : Option ε := none

/-- Model of a `Route` (lines 11-19).  The handler returns the mutated
request and response and `some e` when it throws `e`. -/
structure RouteM (ε : Type) where
  method : Option MethodMatcher := none
  pathname : Option PathnameMatcher := none
  error : Bool := false
  handler : Req ε → Response → Req ε × Response × Option ε

/-- The method-mismatch test of lines 489-495: `true` means `continue`. -/
def methodSkip (m : Option MethodMatcher) (method : String) : Bool :=
  match m with
  | some (.str s) => method != s
  | some (.regex f) => !(f method)
  | none => false

/-- The pathname test of lines 497-506: `none` means `continue`; otherwise
the named captures assigned to `request.pathname`. -/
def pathnameResult (p : Option PathnameMatcher) (pathname : String) :
    Option (List (String × String)) :=
  match p with
  | some (.str s) => if pathname == s then some [] else none
  | some (.regex f) => f pathname
  | none => some []

/-- The inner route loop of lines 485-520 for a request without a live
connection (`request.liveConnection === undefined`, so the post-handler check
reads `response.writableEnded`).  Routes are tagged with their registration
index; the returned list records, in order, the indices of the routes whose
handler ran. -/
def dispatchGo {ε : Type} :
    List (Nat × RouteM ε) → Req ε → Response → Req ε × Response × List Nat
  | [], req, res => (req, res, [])
  | (i, route) :: rest, req, res =>
    if req.error.isSome != route.error then dispatchGo rest req res
    else if methodSkip route.method req.method then dispatchGo rest req res
    else
      match pathnameResult route.pathname req.urlPathname with
      | none => dispatchGo rest req res
      | some caps =>
        let stepped := route.handler { req with pathCaptures := caps } res
        let req2 : Req ε :=
          match stepped.2.2 with
          | some e => { stepped.1 with error := some e }
          | none => stepped.1
        if stepped.2.1.writableEnded then (req2, stepped.2.1, [i])
        else
          let next := dispatchGo rest req2 stepped.2.1
          (next.1, next.2.1, i :: next.2.2)

/-- Diagnostic body of the dispatcher-exhaustion 500 (lines 522-537). -/
def exhaustionMessage : String :=
  "The application didn’t finish handling this request."

/-- The per-pass initialization of lines 483-484:
`request.state = {}; delete request.error;`. -/
def passInit {ε : Type} (req : Req ε) : Req ε :=
  { req with state := [], error := none }

/-- One dispatch pass (lines 483-537) for a request without a live
connection: reset state and error, run the route loop, and, if no route ended
the response, force the diagnostic ending — with status 500 and a
`text/plain` content type only when the headers were not yet sent. -/
def dispatchPass {ε : Type} (routes : List (RouteM ε)) (req : Req ε) (res : Response) :
    Req ε × Response × List Nat :=
  let out := dispatchGo routes.enum (passInit req) res
  if out.2.1.writableEnded then out
  else
    let res1 :=
      if out.2.1.headersSent then out.2.1
      else { out.2.1 with
              statusCode := 500
              contentType := some ("text/plain; charset=utf-8") }
    (out.1, res1.endR (some exhaustionMessage), out.2.2)

/-! ## `encodeURIComponent` / `decodeURIComponent`

The cookie code calls the ECMAScript builtins `encodeURIComponent` and
`decodeURIComponent`.  Strings are embedded as lists of Unicode code points
(`List Nat`); percent-escapes follow the ECMA-262 Encode/Decode algorithms
with UTF-8 as the transformation format.  `encodeURIComponent` leaves the
unreserved set `A-Z a-z 0-9 - _ . ! ~ * ' ( )` intact and percent-encodes the
UTF-8 bytes of every other character with uppercase hex digits;
`decodeURIComponent` is the inverse, failing (`none`, a JS `URIError`) on
malformed escapes. -/

/-- A Unicode scalar value: what a well-formed JS string (no lone surrogates)
contains; `encodeURIComponent` throws on lone surrogates. -/
def ScalarValue (c : Nat) : Prop := c < 1114112 ∧ (c < 55296 ∨ 57344 ≤ c)

instance (c : Nat) : Decidable (ScalarValue c) := by unfold ScalarValue; infer_instance

/-- Characters left intact by `encodeURIComponent`:
`A-Z a-z 0-9 - _ . ! ~ * ' ( )`. -/
def isUriUnreserved (c : Nat) : Bool :=
  (65 ≤ c && c ≤ 90) || (97 ≤ c && c ≤ 122) || (48 ≤ c && c ≤ 57) ||
    c == 45 || c == 95 || c == 46 || c == 33 || c == 126 || c == 42 ||
    c == 39 || c == 40 || c == 41

/-- Uppercase hexadecimal digit, as produced by the ECMAScript Encode
algorithm. -/
def hexDigitChar (n : Nat) : Nat := if n < 10 then 48 + n else 55 + n

/-- UTF-8 encoding of one scalar value, as a list of bytes. -/
def utf8EncodeChar (c : Nat) : List Nat :=
  if c < 128 then [c]
  else if c < 2048 then [192 + c / 64, 128 + c % 64]
  else if c < 65536 then [224 + c / 4096, 128 + (c / 64) % 64, 128 + c % 64]
  else [240 + c / 262144, 128 + (c / 4096) % 64, 128 + (c / 64) % 64, 128 + c % 64]

/-- Percent-escape of one byte: `%XY` with uppercase hex. -/
def percentEncodeByte (b : Nat) : List Nat := [37, hexDigitChar (b / 16), hexDigitChar (b % 16)]

/-- Encoding of one character under `encodeURIComponent`. -/
def encodeChar (c : Nat) : List Nat :=
  if isUriUnreserved c then [c] else (utf8EncodeChar c).flatMap percentEncodeByte

/-- Model of `encodeURIComponent` over code-point lists. -/
def encodeURIComponentL (s : List Nat) : List Nat := s.flatMap encodeChar

/-- Value of a hexadecimal digit character (either case), as accepted by the
ECMAScript Decode algorithm. -/
def hexVal (c : Nat) : Option Nat :=
  if 48 ≤ c && c ≤ 57 then some (c - 48)
  else if 65 ≤ c && c ≤ 70 then some (c - 55)
  else if 97 ≤ c && c ≤ 102 then some (c - 87)
  else none

/-- Read one `%XY` escape from the front of the input, returning the byte and
the rest. -/
def readPercentByte : List Nat → Option (Nat × List Nat)
  | c :: h1 :: h2 :: rest =>
    if c == 37 then
      match hexVal h1, hexVal h2 with
      | some a, some b => some (16 * a + b, rest)
      | _, _ => none
    else none
  | _ => none

/-- A UTF-8 continuation byte. -/
def isContByte (b : Nat) : Bool := 128 ≤ b && b < 192

/-- Read one full percent-escaped UTF-8 sequence (1-4 `%XY` escapes) from the
front of the input and decode it to a scalar value, rejecting overlong forms,
surrogates and out-of-range values as the ECMAScript Decode algorithm does. -/
def parsePercentSeq (s : List Nat) : Option (Nat × List Nat) :=
  match readPercentByte s with
  | none => none
  | some (b0, r0) =>
    if b0 < 128 then some (b0, r0)
    else if 194 ≤ b0 && b0 ≤ 223 then
      match readPercentByte r0 with
      | some (b1, r1) =>
        if isContByte b1 then some ((b0 - 192) * 64 + (b1 - 128), r1) else none
      | none => none
    else if 224 ≤ b0 && b0 ≤ 239 then
      match readPercentByte r0 with
      | some (b1, r1) =>
        match readPercentByte r1 with
        | some (b2, r2) =>
          if isContByte b1 && isContByte b2 then
            let v := (b0 - 224) * 4096 + (b1 - 128) * 64 + (b2 - 128)
            if 2048 ≤ v && (v < 55296 || 57344 ≤ v) then some (v, r2) else none
          else none
        | none => none
      | none => none
    else if 240 ≤ b0 && b0 ≤ 244 then
      match readPercentByte r0 with
      | some (b1, r1) =>
        match readPercentByte r1 with
        | some (b2, r2) =>
          match readPercentByte r2 with
          | some (b3, r3) =>
            if isContByte b1 && isContByte b2 && isContByte b3 then
              let v := (b0 - 240) * 262144 + (b1 - 128) * 4096 + (b2 - 128) * 64 + (b3 - 128)
              if 65536 ≤ v && v ≤ 1114111 then some (v, r3) else none
            else none
          | none => none
        | none => none
      | none => none
    else none

/-- Fuel-indexed decoding loop; the fuel only needs to bound the number of
output characters, and `decodeURIComponentL` passes the input length. -/
def decodeURIAux : Nat → List Nat → Option (List Nat)
  | _, [] => some []
  | 0, _ :: _ => none
  | fuel + 1, c :: rest =>
    if c == 37 then
      match parsePercentSeq (c :: rest) with
      | none => none
      | some (v, r) => (decodeURIAux fuel r).map (fun t => v :: t)
    else (decodeURIAux fuel rest).map (fun t => c :: t)

/-- Model of `decodeURIComponent` over code-point lists; `none` is a thrown
`URIError`. -/
def decodeURIComponentL (s : List Nat) : Option (List Nat) := decodeURIAux s.length s

/-! ## Cookie parsing (lines 137-148) and `setCookie` (lines 431-442) -/

/-- The ECMAScript whitespace characters removed by `String.prototype.trim`. -/
def isJsWhitespace (c : Nat) : Bool :=
  c == 9 || c == 10 || c == 11 || c == 12 || c == 13 || c == 32 || c == 160 ||
    c == 5760 || (8192 ≤ c && c ≤ 8202) || c == 8232 || c == 8233 ||
    c == 8239 || c == 8287 || c == 12288 || c == 65279

/-- Model of `String.prototype.trim` over code-point lists. -/
def jsTrim (s : List Nat) : List Nat :=
  ((s.dropWhile isJsWhitespace).reverse.dropWhile isJsWhitespace).reverse

/-- Model of `String.prototype.split(sep)` for a one-character separator: the
list of (possibly empty) chunks between separator occurrences. -/
def splitOnChar (sep : Nat) : List Nat → List (List Nat)
  | [] => [[]]
  | c :: rest =>
    let r := splitOnChar sep rest
    if c == sep then [] :: r
    else
      match r with
      | h :: t => (c :: h) :: t
      | [] => [[c]]

/-- Code points of the `__Host-` secure-cookie marker. -/
def hostMarker : List Nat := [95, 95, 72, 111, 115, 116, 45]

/-- Model of the `parts[0].replace` call at line 145 (regex anchored at the
start): strip one leading `__Host-`. -/
def stripHostMarker (s : List Nat) : List Nat :=
  if hostMarker.isPrefixOf s then s.drop hostMarker.length else s

/-- Message of the error thrown at line 144. -/
def cookieMalformedMessage : String := "Error: Malformed ‘Cookie’ header."

/-- Message of the `URIError` thrown by `decodeURIComponent` on a bad
escape. -/
def uriErrorMessage : String := "URIError: URI malformed"

/-- Collect a list of optional values, failing if any is `none` (the first JS
exception aborts the whole `map`). -/
def collectSomes {α : Type} : List (Option α) → Option (List α)
  | [] => some []
  | none :: _ => none
  | some a :: rest => (collectSomes rest).map (fun t => a :: t)

/-- The `flatMap` body of lines 138-147, over the `;`-separated chunks: skip
blank chunks; split each chunk on every `=`; trim and percent-decode each
part; require exactly two non-empty parts; strip the `__Host-` marker from
the key. -/
def parseCookiePairsGo : List (List Nat) → Except String (List (List Nat × List Nat))
  | [] => .ok []
  | pair :: rest =>
    if jsTrim pair == [] then parseCookiePairsGo rest
    else
      match collectSomes ((splitOnChar 61 pair).map (fun p => decodeURIComponentL (jsTrim p))) with
      | none => .error uriErrorMessage
      | some parts =>
        match parts with
        | [k, v] =>
          if k == [] || v == [] then .error cookieMalformedMessage
          else (parseCookiePairsGo rest).map (fun t => (stripHostMarker k, v) :: t)
        | _ => .error cookieMalformedMessage

/-- Model of the cookie parsing of lines 137-148, producing the entry list
fed to `Object.fromEntries`; `.error` is the exception propagated to the
request-level `catch`. -/
def parseCookiePairs (header : List Nat) : Except String (List (List Nat × List Nat)) :=
  parseCookiePairsGo (splitOnChar 59 header)

/-- Decimal digits of a natural number (for the `Max-Age` attribute). -/
def natDigits (n : Nat) : List Nat :=
  (Nat.toDigits 10 n).map Char.toNat

/-- The cookie pair written by `setCookie` (line 439):
`__Host-<enc key>=<enc value>` — the part a browser sends back in a `Cookie`
header. -/
def setCookiePair (key value : List Nat) : List Nat :=
  hostMarker ++ encodeURIComponentL key ++ 61 :: encodeURIComponentL value

/-- Code points of a plain ASCII Lean string. -/
def codesOf (s : String) : List Nat := s.data.map Char.toNat

/-- The full `Set-Cookie` header value written by `setCookie` (lines
431-442), attributes included. -/
def setCookieHeaderValue (key value : List Nat) (maxAge : Nat) : List Nat :=
  setCookiePair key value ++ codesOf ("; Max-Age=") ++ natDigits maxAge ++
    codesOf ("; Path=/; Secure; HttpOnly; SameSite=None")

/-! ## Body ingestor (lines 150-244)

The request body is parsed by the external `busboy` stream parser, configured
with the hard limits of lines 166-173; this code consumes busboy's events.
The embedding takes the event stream as input: `field` and `file` events
carry the truncation flags busboy computes from `fieldNameSize` / `fieldSize`
/ `fileSize`, and `fieldsLimit` / `filesLimit` are the events busboy emits
when the `fields` / `files` counts are exceeded.  The temporary-file path of
lines 194-205 (a fresh random directory name per file) and the directory
cleanup on response close are I/O and are not modeled.

Promise semantics: the `await new Promise` of lines 161-242 settles with the
first `reject` (or with `resolve` on `close`); after `close` resolves, the
awaited `Promise.all(filesPromises)` (line 243) propagates a truncated-file
rejection — even though the parse stream already signaled completion. -/

/-- The information busboy reports for one uploaded file: the original
filename and whether the file stream was truncated by the `fileSize` limit. -/
structure FileInfo where
  filename : String
  truncated : Bool := false
deriving Repr, DecidableEq

/-- A scalar body value: a field's string or an uploaded file. -/
inductive BodyScalar where
  | str (value : String)
  | file (info : FileInfo)
deriving Repr, DecidableEq

/-- A `request.body` entry: a scalar, or the array accumulated for a
`[]`-suffixed name. -/
inductive BodyValue where
  | scalar (v : BodyScalar)
  | array (vs : List BodyScalar)
deriving Repr, DecidableEq

/-- JS-object association list: lookup by key. -/
def assocLookup {α : Type} : List (String × α) → String → Option α
  | [], _ => none
  | (k, v) :: rest, key => if k == key then some v else assocLookup rest key

/-- JS-object association list: assignment (update in place, or append for a
new key). -/
def assocSet {α : Type} : List (String × α) → String → α → List (String × α)
  | [], key, v => [(key, v)]
  | (k, w) :: rest, key, v =>
    if k == key then (k, v) :: rest else (k, w) :: assocSet rest key v

/-- Model of `request.body`: a JS object from names to values. -/
abbrev Body : Type := List (String × BodyValue)

/-- Model of `name.endsWith(suffix)` via the underlying characters. -/
def strEndsWith (s suffix : String) : Bool := suffix.data.isSuffixOf s.data

/-- Model of `name.slice(0, -n)`. -/
def strDropRight (s : String) (n : Nat) : String :=
  String.mk (s.data.take (s.data.length - n))

/-- The body-entry assignment shared by the `field` (lines 180-187) and
`file` (lines 206-213) handlers: a name ending in `[]` pushes onto the array
under the de-suffixed key (`request.body[key] ??= []` keeps an existing
value, so pushing onto an existing scalar is a JS `TypeError`, modeled as
`none`); any other name assigns a scalar, overwriting. -/
def addBodyValue (body : Body) (name : String) (v : BodyScalar) : Option Body :=
  if strEndsWith name ("[]") then
    let key := strDropRight name 2
    match assocLookup body key with
    | none => some (assocSet body key (.array [v]))
    | some (.array vs) => some (assocSet body key (.array (vs ++ [v])))
    | some (.scalar _) => none
  else some (assocSet body name (.scalar v))

/-- The busboy events this code listens to (lines 175-240), in stream order;
the final `close` event is implicit at the end of the list. -/
inductive BusboyEvent where
  | field (name value : String) (nameTruncated valueTruncated : Bool)
  | file (name : String) (info : FileInfo)
  | fieldsLimit
  | filesLimit
deriving Repr, DecidableEq

/-- Error message of line 178. -/
def fieldTooLargeMessage : String := "Error: Field too large."

/-- Error message of line 192. -/
def fileNameTooLargeMessage : String := "Error: File name too large."

/-- Error message of line 232. -/
def tooManyFieldsMessage : String := "Error: Too many fields."

/-- Error message of line 236. -/
def tooManyFilesMessage : String := "Error: Too many files."

/-- Error message of line 222. -/
def fileTooLargeMessage : String := "Error: File too large."

/-- The in-stream phase of the ingestor: each event either settles the
promise with a 413 rejection (status code, message), mutates the body, or —
for a `TypeError` thrown by pushing onto a scalar — crashes outside the
promise (`none`).  Files are collected for the post-close truncation check.
The scan stops at the first settling rejection, like the first `reject`
wins. -/
def ingestScan :
    List BusboyEvent → Body → List FileInfo →
      Option (Except (Nat × String) (Body × List FileInfo))
  | [], body, files => some (.ok (body, files))
  | .field name value nT vT :: rest, body, files =>
    if nT || vT then some (.error (413, fieldTooLargeMessage))
    else
      match addBodyValue body name (.str value) with
      | none => none
      | some body1 => ingestScan rest body1 files
  | .file name info :: rest, body, files =>
    if info.filename.data.length > 200 then some (.error (413, fileNameTooLargeMessage))
    else
      match addBodyValue body name (.file info) with
      | none => none
      | some body1 => ingestScan rest body1 (files ++ [info])
  | .fieldsLimit :: _, _, _ => some (.error (413, tooManyFieldsMessage))
  | .filesLimit :: _, _, _ => some (.error (413, tooManyFilesMessage))

/-- The whole body ingestion (lines 161-243): run the stream phase, then —
after the parse stream signaled completion — fail with 413 if any written
file was truncated (`await Promise.all(filesPromises)`, lines 214-225 and
243).  `none` models the process-level `TypeError` crash, `.error` the value
rejected into the request-level `catch`. -/
def ingestBody (events : List BusboyEvent) : Option (Except (Nat × String) Body) :=
  (ingestScan events [] []).map (fun r =>
    match r with
    | .error e => .error e
    | .ok (body, files) =>
      if files.any (fun f => f.truncated) then .error (413, fileTooLargeMessage)
      else .ok body)

/-- Does a busboy event violate one of the configured ingestion limits
(field name length, field value size, filename length, file size, field
count, file count)? -/
def eventViolatesLimit : BusboyEvent → Bool
  | .field _ _ nT vT => nT || vT
  | .file _ info => info.filename.data.length > 200 || info.truncated
  | .fieldsLimit => true
  | .filesLimit => true

/-- The name carried by a `field` or `file` event. -/
def busboyEventName : BusboyEvent → Option String
  | .field name _ _ _ => some name
  | .file name _ => some name
  | _ => none

/-- The `request.body` key a `field`/`file` name is stored under: the name
with a trailing `[]` removed, or the name itself. -/
def storageKey (name : String) : String :=
  if strEndsWith name ("[]") then strDropRight name 2 else name

/-- The scalar values, in stream order, that events would store under key
`key`. -/
def bodyValuesFor (key : String) : List BusboyEvent → List BodyScalar
  | [] => []
  | .field name value _ _ :: rest =>
    if storageKey name == key then .str value :: bodyValuesFor key rest
    else bodyValuesFor key rest
  | .file name info :: rest =>
    if storageKey name == key then .file info :: bodyValuesFor key rest
    else bodyValuesFor key rest
  | .fieldsLimit :: rest => bodyValuesFor key rest
  | .filesLimit :: rest => bodyValuesFor key rest

/-! ## Context builder: CSRF protection (lines 120-133) and the request
pipeline -/

/-- The `csrfProtectionExceptionPathname` server option: an exact string
(default `""`) or a regular expression, embedded as a boolean match
function. -/
inductive CsrfExceptionPathname where
  | str (s : String)
  | regex (test : String → Bool)

/-- Does the exception pathname configuration exempt this pathname?  Mirrors
the two disjuncts of lines 123-127 (negated: lines 123-127 state
non-exemption). -/
def csrfExceptionMatches (cfg : CsrfExceptionPathname) (pathname : String) : Bool :=
  match cfg with
  | .str s => pathname == s
  | .regex f => f pathname

/-- The CSRF rejection condition of lines 120-128: a non-`GET` request whose
`CSRF-Protection` header is not exactly the string `"true"` and whose
pathname does not match the configured exception. -/
def csrfRejects (cfg : CsrfExceptionPathname) (method : String)
    (csrfHeader : Option String) (pathname : String) : Bool :=
  method != ("GET") && csrfHeader != some ("true") && !(csrfExceptionMatches cfg pathname)

/-- Message of the error thrown at lines 130-132. -/
def csrfErrorMessage : String :=
  "Error: This request appears to have come from outside the application. Please close this tab and start again. (Cross-Site Request Forgery (CSRF) protection failed.)"

/-- The inputs of the request pipeline, already at the header level: method,
URL pathname, the `CSRF-Protection` header, the `Cookie` header, and the
busboy event stream of the body (`none` when no `Content-Type` header is
present, in which case the ingestor is skipped and `request.body` stays
`{}`). -/
structure Incoming where
  method : String
  urlPathname : String
  csrfHeader : Option String := none
  cookieHeader : Option (List Nat) := none
  bodyEvents : Option (List BusboyEvent) := none

/-- The context successfully built by the `try` block of lines 88-247. -/
structure ParsedContext where
  cookies : List (List Nat × List Nat)
  body : Body

/-- The `try` block of lines 88-247 (CSRF check, cookie parsing, body
ingestion), for a request with a well-formed request line.  An error carries
the status code already assigned when the exception was thrown (`200` when
untouched) and the stringified exception. -/
def tryPhase (cfg : CsrfExceptionPathname) (inc : Incoming) :
    Option (Except (Nat × String) ParsedContext) :=
  if csrfRejects cfg inc.method inc.csrfHeader inc.urlPathname then
    some (.error (403, csrfErrorMessage))
  else
    match parseCookiePairs (inc.cookieHeader.getD []) with
    | .error msg => some (.error (200, msg))
    | .ok cookies =>
      match inc.bodyEvents with
      | none => some (.ok { cookies := cookies, body := [] })
      | some events =>
        match ingestBody events with
        | none => none
        | some (.error e) => some (.error e)
        | some (.ok body) => some (.ok { cookies := cookies, body := body })

/-- The whole request listener for an ordinary request (outside the built-in
`/_health`, `/_proxy`, `/__live-connections` endpoints and live-connection
negotiation, which are modeled separately): the `try` block, the `catch` of
lines 248-253 (status 400 when still 200, `text/plain`, the stringified
error as body), and — only if the response is not yet ended — one dispatch
pass.  Returns the final response and the ghost trace of executed route
indices; `none` models a process-level crash inside the body parser. -/
def processRequest {ε : Type} (cfg : CsrfExceptionPathname) (routes : List (RouteM ε))
    (inc : Incoming) : Option (Response × List Nat) :=
  match tryPhase cfg inc with
  | none => none
  | some (.error (status, msg)) =>
    let res1 : Response :=
      { freshResponse with
        statusCode := if status == 200 then 400 else status
        contentType := some ("text/plain; charset=utf-8") }
    some (res1.endR (some msg), [])
  | some (.ok _) =>
    let req : Req ε := { method := inc.method, urlPathname := inc.urlPathname }
    let out := dispatchPass routes req freshResponse
    some (out.2.1, out.2.2)

/-! ## Live-connection registry (lines 342-427, 378-385, 552-561)

The registry (`liveConnections`, line 69) is a set of connection objects
`{ request, response, establish?, skipUpdateOnEstablish?, deleteTimeout? }`.
Request and response objects are identified by ghost tags (`===` identity);
the `response.liveConnectionEnd` closure saved at line 414 is modeled by the
`hasEndOverride` flag, and the ghost list `closedResponseTags` records the
responses whose saved real `end` was invoked (their write path was closed).
Timers are modeled by fresh identifiers: arming stores a fresh id,
`clearTimeout` erases it, and a timer can only fire while some connection
still holds its id (a cleared timer never fires). -/

/-- The 30-second abandonment grace window (lines 381-384):
`setTimeout(..., 30 * 1000)`. -/
def liveConnectionDeleteDelayMs : Nat := 30 * 1000

/-- One registry entry (`LiveConnection`, lines 53-59).  `id` is
`liveConnection.request.id`: the create path assigns the header's id to the
request (line 357), and the reattach path copies the stored id onto the new
request (line 374), so the stored request's id is always the connection
id. -/
structure LiveConn where
  id : String
  urlHref : String
  requestTag : Nat
  responseTag : Nat
  hasEndOverride : Bool := false
  establish : Bool := false
  skipUpdateOnEstablish : Bool := false
  deleteTimeout : Option (Nat × Nat) := none
deriving Repr, DecidableEq

/-- The registry plus ghost bookkeeping: a fresh-timer counter and the tags
of responses whose write path was closed via `liveConnectionEnd`. -/
structure Registry where
  conns : List LiveConn := []
  nextTimerId : Nat := 0
  closedResponseTags : List Nat := []
deriving Repr, DecidableEq

/-- Replace the first element satisfying `p` (the object `find` returned,
mutated in place). -/
def replaceFirst {α : Type} (p : α → Bool) (f : α → α) : List α → List α
  | [] => []
  | a :: rest => if p a then f a :: rest else a :: replaceFirst p f rest

/-- The id constraint of line 347: `^[a-z0-9]{5,}$`. -/
def validLiveConnectionId (s : String) : Bool :=
  decide (5 ≤ s.data.length) &&
    s.data.all (fun c => (97 ≤ c.toNat && c.toNat ≤ 122) || (48 ≤ c.toNat && c.toNat ≤ 57))

/-- An incoming request carrying a `Live-Connection` header: ghost identity
tags for the request/response pair, the method, the full URL href, and the
header value. -/
structure LCRequest where
  requestTag : Nat
  responseTag : Nat
  method : String
  urlHref : String
  lcId : String

/-- Outcome of live-connection negotiation. -/
inductive LCOutcome where
  | created
  | established
  | rejected400 (message : String)
deriving Repr, DecidableEq

/-- The `catch` of lines 422-427: status 400, `text/plain`, stringified
error as body. -/
def liveConnectionReject (res : Response) (msg : String) : Response :=
  ({ res with statusCode := 400, contentType := some ("text/plain; charset=utf-8") }).endR
    (some msg)

/-- Message of the error thrown at line 349. -/
def invalidLiveConnectionHeaderMessage : String := "Error: Invalid ‘Live-Connection’ header."

/-- Message of the error thrown at line 363. -/
def unmatchedHrefMessage : String := "Error: Unmatched ‘href’ of existing request."

/-- The live-connection negotiation of lines 344-427 for a request carrying a
`Live-Connection` header.  Non-`GET` or a malformed id rejects with 400
(lines 346-349).  An unknown id creates a connection from this
request/response pair (lines 355-359).  A known id with a different URL href
rejects with 400 (lines 360-363); with the same href, the pending abandonment
timer is cleared, the previous response's saved real `end` is invoked (its
write path closes), and this pair becomes current (lines 364-377).  In both
non-rejecting branches, the response gets the `application/json-lines`
content type (lines 387-390), `establish` is set (line 412) and the `end`
override is installed (lines 414-421). -/
def handleLiveConnectionHeader (st : Registry) (req : LCRequest) (res : Response) :
    Registry × Response × LCOutcome :=
  if req.method != ("GET") || !validLiveConnectionId req.lcId then
    (st, liveConnectionReject res invalidLiveConnectionHeaderMessage,
      .rejected400 invalidLiveConnectionHeaderMessage)
  else
    match st.conns.find? (fun lc => lc.id == req.lcId) with
    | none =>
      let newConn : LiveConn :=
        { id := req.lcId
          urlHref := req.urlHref
          requestTag := req.requestTag
          responseTag := req.responseTag
          hasEndOverride := true
          establish := true
          skipUpdateOnEstablish := false }
      ({ st with conns := st.conns ++ [newConn] },
        res.setContentType ("application/json-lines; charset=utf-8"), .created)
    | some lc =>
      if lc.urlHref != req.urlHref then
        (st, liveConnectionReject res unmatchedHrefMessage,
          .rejected400 unmatchedHrefMessage)
      else
        ({ st with
            conns :=
              replaceFirst (fun c => c.id == req.lcId)
                (fun c =>
                  { c with
                    requestTag := req.requestTag
                    responseTag := req.responseTag
                    deleteTimeout := none
                    hasEndOverride := true
                    establish := true })
                st.conns
            closedResponseTags :=
              if lc.hasEndOverride then lc.responseTag :: st.closedResponseTags
              else st.closedResponseTags },
          res.setContentType ("application/json-lines; charset=utf-8"), .established)

/-- The response `close` listener of lines 378-385: when the closing
response's request is still the connection's current request, arm the
abandonment timer (a fresh timer id, 30-second delay). -/
def liveConnectionSocketClose (st : Registry) (connId : String) (closingRequestTag : Nat) :
    Registry :=
  { st with
    conns :=
      replaceFirst (fun lc => lc.id == connId && lc.requestTag == closingRequestTag)
        (fun lc => { lc with deleteTimeout := some (st.nextTimerId, liveConnectionDeleteDelayMs) })
        st.conns
    nextTimerId := st.nextTimerId + 1 }

/-- The abandonment-timer callback of lines 381-384: when the grace window
elapses without the timer having been cleared, the connection holding the
timer is deleted from the registry.  A cleared timer id is held by no
connection, so firing it deletes nothing. -/
def fireDeleteTimeout (st : Registry) (timerId : Nat) : Registry :=
  { st with conns := st.conns.filter (fun lc => !(lc.deleteTimeout.map Prod.fst == some timerId)) }

/-! ## Client IP and the loopback-only administrative endpoint
(lines 101, 309-340) -/

/-- Line 101: `request.ip = String(request.headers["x-forwarded-for"] ??
"127.0.0.1")` — with no `X-Forwarded-For` header the client IP is the
literal loopback string. -/
def requestIp (xForwardedFor : Option String) : String :=
  xForwardedFor.getD ("127.0.0.1")

/-- The guard of lines 309-313 in front of the `POST /__live-connections`
administrative endpoint. -/
def adminEndpointGuard (ip method pathname : String) : Bool :=
  ip == ("127.0.0.1") && method == ("POST") && pathname == ("/__live-connections")

/-- Model of `String.prototype.trim` on a Lean string (for the
`request.body.pathname.trim() === ""` validation of lines 315-318). -/
def jsTrimString (s : String) : String :=
  String.mk (((s.data.dropWhile (fun c => isJsWhitespace c.toNat)).reverse.dropWhile
    (fun c => isJsWhitespace c.toNat)).reverse)

/-- The `POST /__live-connections` endpoint (lines 309-340): when the guard
passes and the body carries a non-blank string `pathname` field, the response
ends successfully and — once it closes — every live connection whose URL
matches the pattern gets a push update (lines 320-333).  This model reduces
it to the decision that updates will be triggered. -/
def adminUpdatesTriggered (ip method pathname : String) (bodyPathname : Option String) : Bool :=
  adminEndpointGuard ip method pathname &&
    (match bodyPathname with
     | some p => !(jsTrimString p == ("" : String))
     | none => false)

/-! ## Concrete example instances

Concrete routes, requests and registry states used to evaluate the model on
specific inputs. -/

/-- A normal route whose handler throws. -/
def throwRoute : RouteM String :=
  { handler := fun q r => (q, r, some ("boom")) }

/-- An error route (`error: true`) that renders an error page and ends the
response. -/
def errorPageRoute : RouteM String :=
  { error := true, handler := fun q r => (q, r.endR (some ("error page")), none) }

/-- A plain request context. -/
def plainReq : Req String := { method := "GET", urlPathname := "/t" }

/-- A `POST /x` route that ends the response. -/
def postXRoute : RouteM String :=
  { method := some (.str ("POST")), pathname := some (.str ("/x")),
    handler := fun q r => (q, r.endR (some ("handled")), none) }

/-- A `POST /x` request carrying the truthy — but not `"true"` — CSRF
header value `"1"`. -/
def postXTruthyCsrf : Incoming :=
  { method := "POST", urlPathname := "/x", csrfHeader := some ("1") }

/-- A `POST /x` request carrying no CSRF header at all. -/
def postXNoCsrf : Incoming := { method := "POST", urlPathname := "/x" }

/-- A `GET /w` route whose handler writes a chunk (flushing the headers) but
never ends the response. -/
def writeNoEndRoute : RouteM String :=
  { pathname := some (.str ("/w")), handler := fun q r => (q, r.write ("partial"), none) }

/-- A `GET /w` request. -/
def reqW : Req String := { method := "GET", urlPathname := "/w" }

/-- A route on pathname `/a`, which the request `reqB` does not match. -/
def routeA : RouteM String :=
  { pathname := some (.str ("/a")), handler := fun q r => (q, r.endR none, none) }

/-- A `GET /b` request. -/
def reqB : Req String := { method := "GET", urlPathname := "/b" }

/-- An established live connection (it went through the header path, so its
current response carries the saved real `end`). -/
def exConn : LiveConn :=
  { id := "abcde", urlHref := "http://localhost:18000/chat",
    requestTag := 1, responseTag := 2, hasEndOverride := true,
    skipUpdateOnEstablish := true }

/-- A registry holding just `exConn`. -/
def exRegistry : Registry := { conns := [exConn], nextTimerId := 7 }

/-- A reattachment request: same id, same URL href, a new request/response
pair. -/
def exReattachReq : LCRequest :=
  { requestTag := 10, responseTag := 11, method := "GET",
    urlHref := "http://localhost:18000/chat", lcId := "abcde" }

/-- A request with the same id but a different URL href. -/
def exMismatchReq : LCRequest :=
  { requestTag := 10, responseTag := 11, method := "GET",
    urlHref := "http://localhost:18000/other", lcId := "abcde" }

/-- A body stream whose single file was truncated by the `fileSize` limit —
only detectable after the parse stream signals completion. -/
def truncatedFileEvents : List BusboyEvent :=
  [.file ("avatar") { filename := "a.png", truncated := true }]

/-- A body stream mixing the suffixed name `tags[]` with the unsuffixed name
`tags` (the suffixed values arrive first). -/
def mixedTagsEvents : List BusboyEvent :=
  [.field ("tags[]") ("x") false false,
   .field ("tags[]") ("y") false false,
   .field ("tags") ("z") false false]

/-- The body value stored under a key used exclusively with the `[]` suffix:
absent while no value arrived, otherwise the array of all values in arrival
order. -/
def arrayStateOf (vs : List BodyScalar) : Option BodyValue :=
  match vs with
  | [] => none
  | _ => some (.array vs)

/-- The body value stored under a key used exclusively without the `[]`
suffix: absent while no value arrived, otherwise the last-arrived scalar. -/
def scalarStateOf (c : Option BodyScalar) : Option BodyValue :=
  match c with
  | none => none
  | some v => some (.scalar v)

/-- A body stream posting the field `tags[]` twice. -/
def twoTagsEvents : List BusboyEvent :=
  [.field ("tags[]") ("x") false false,
   .field ("tags[]") ("y") false false]

/-! ## Theorems -/

/-- C10: with no `X-Forwarded-For` header the client IP is the literal
string `127.0.0.1` (line 101), so a directly connected client that omits the
header satisfies the IP guard of `POST /__live-connections` and — with a
non-blank `pathname` body field — triggers push updates to live
connections. -/
theorem c10_default_ip_is_loopback :
    requestIp none = ("127.0.0.1" : String) ∧
    (∀ p : String, jsTrimString p ≠ ("" : String) →
      adminUpdatesTriggered (requestIp none) ("POST") ("/__live-connections") (some p) = true) := by
  refine ⟨rfl, fun p hp => ?_⟩
  simp only [adminUpdatesTriggered, adminEndpointGuard, requestIp]
  simp [hp]

/-- C10 witness: the concrete pathname pattern `/chat` is non-blank and
triggers updates. -/
theorem c10_default_ip_is_loopback_witness :
    jsTrimString ("/chat") ≠ ("" : String) ∧
    adminUpdatesTriggered (requestIp none) ("POST") ("/__live-connections") (some ("/chat")) = true :=
  ⟨by decide, c10_default_ip_is_loopback.2 ("/chat") (by decide)⟩

/-- C4 counterexample: with a live connection attached, `response.end` is
overridden (lines 414-421); after a first call to the overridden `end`, a
second call writes another observable JSON line to the response body — it is
not an idempotent no-op, contradicting the claim for responses with a live
connection attached. -/
theorem c4_live_end_not_idempotent :
    (liveConnectionEndOverride { response := freshResponse } (some ("a"))).lcWritableEnded = true ∧
    (liveConnectionEndOverride (liveConnectionEndOverride { response := freshResponse } (some ("a")))
        (some ("b"))).response.chunks =
      [jsonStringifyString ("a") ++ String.mk [Char.ofNat 10],
       jsonStringifyString ("b") ++ String.mk [Char.ofNat 10]] ∧
    (liveConnectionEndOverride (liveConnectionEndOverride { response := freshResponse } (some ("a")))
        (some ("b"))).response.chunks ≠
      (liveConnectionEndOverride { response := freshResponse } (some ("a"))).response.chunks := by
  refine ⟨rfl, rfl, ?_⟩
  decide

/-- C4 (amended): for a plain response, ending is irreversible and
idempotent — after `end`, no write is observable and further `end` calls are
no-ops.  When a live connection is attached, the overridden `end` does not
end the underlying response: it marks the virtual layer ended and each call
with a string payload appends one observable JSON line to the still-open
physical stream, so repeated calls produce repeated observable writes. -/
theorem c4_end_irreversible_except_live_override :
    (∀ (r : Response) (d : Option String) (x : String), (r.endR d).write x = r.endR d) ∧
    (∀ (r : Response) (d d2 : Option String), (r.endR d).endR d2 = r.endR d) ∧
    (∀ (s : LiveResponse) (d : String), s.response.writableEnded = false →
      (liveConnectionEndOverride s (some d)).lcWritableEnded = true ∧
      (liveConnectionEndOverride s (some d)).response.writableEnded = false ∧
      (liveConnectionEndOverride s (some d)).response.chunks =
        s.response.chunks ++ [jsonStringifyString d ++ String.mk [Char.ofNat 10]]) := by
  refine ⟨fun r d x => ?_, fun r d d2 => ?_, fun s d h => ?_⟩
  · simp only [Response.endR, Response.write]
    by_cases hr : r.writableEnded <;> simp [hr]
  · simp only [Response.endR]
    by_cases hr : r.writableEnded <;> simp [hr]
  · simp [liveConnectionEndOverride, Response.write, h]

/-- C4 witness: the overridden `end` on a fresh live response records the
virtual flag and one observable JSON line. -/
theorem c4_end_irreversible_except_live_override_witness :
    (freshResponse.writableEnded = false) ∧
    ((liveConnectionEndOverride { response := freshResponse } (some ("a"))).lcWritableEnded = true ∧
     (liveConnectionEndOverride { response := freshResponse } (some ("a"))).response.writableEnded
        = false ∧
     (liveConnectionEndOverride { response := freshResponse } (some ("a"))).response.chunks =
       freshResponse.chunks ++ [jsonStringifyString ("a") ++ String.mk [Char.ofNat 10]]) :=
  ⟨rfl,
    c4_end_irreversible_except_live_override.2.2 { response := freshResponse } ("a") rfl⟩

/-- C2 counterexample: the header value `"1"` is truthy, yet a `POST /x`
request carrying it — with the default (empty-string) exception pathname and
a matching route registered — is still rejected with 403 and the CSRF
explanation body, and no route handler runs: only the exact value `"true"`
exempts (line 122). -/
theorem c2_truthy_header_still_rejected :
    processRequest (.str ("")) [postXRoute] postXTruthyCsrf =
      some ({ statusCode := 403, headersSent := true,
              contentType := some ("text/plain; charset=utf-8"),
              chunks := [csrfErrorMessage], writableEnded := true }, []) := by
  rfl

/-- C2 (amended): for every request whose method is not `GET`, whose
pathname does not match the configured exception, and whose
`CSRF-Protection` header is not exactly the string `"true"`, the server
responds 403 with the explanation body and no route handler runs; carrying
the header with the exact value `"true"` exempts the request from CSRF
rejection. -/
theorem c2_csrf_rejection {ε : Type} (cfg : CsrfExceptionPathname)
    (routes : List (RouteM ε)) (inc : Incoming) :
    (inc.method ≠ ("GET" : String) →
      csrfExceptionMatches cfg inc.urlPathname = false →
      inc.csrfHeader ≠ some ("true" : String) →
      processRequest cfg routes inc =
        some ({ statusCode := 403, headersSent := true,
                contentType := some ("text/plain; charset=utf-8"),
                chunks := [csrfErrorMessage], writableEnded := true }, [])) ∧
    (inc.csrfHeader = some ("true" : String) →
      csrfRejects cfg inc.method inc.csrfHeader inc.urlPathname = false) := by
  constructor
  · intro hm hx hh
    have hrej : csrfRejects cfg inc.method inc.csrfHeader inc.urlPathname = true := by
      simp [csrfRejects, hx, bne_iff_ne, hm, hh]
    simp [processRequest, tryPhase, hrej, Response.endR, freshResponse]
  · intro hh
    simp [csrfRejects, hh]

/-- C2 witness: a `POST /x` request with no CSRF header under the default
configuration gets the 403 rejection with no handler run. -/
theorem c2_csrf_rejection_witness :
    (("POST" : String) ≠ ("GET" : String) ∧
      csrfExceptionMatches (.str ("")) ("/x") = false ∧
      postXNoCsrf.csrfHeader ≠ some ("true" : String)) ∧
    processRequest (.str ("")) [postXRoute] postXNoCsrf =
      some ({ statusCode := 403, headersSent := true,
              contentType := some ("text/plain; charset=utf-8"),
              chunks := [csrfErrorMessage], writableEnded := true }, []) :=
  ⟨⟨by decide, by decide, by decide⟩,
    (c2_csrf_rejection (.str ("")) [postXRoute] postXNoCsrf).1 (by decide) (by decide) (by decide)⟩

/-- Helper: a route list in which no pathname matches the request leaves the
dispatcher loop without running any handler and without touching request or
response. -/
theorem dispatchGo_no_pathname_match {ε : Type} (l : List (Nat × RouteM ε))
    (req : Req ε) (res : Response)
    (h : ∀ p ∈ l, pathnameResult p.2.pathname req.urlPathname = none) :
    dispatchGo l req res = (req, res, []) := by
  induction l with
  | nil => rfl
  | cons p rest ih =>
    have hp := h p (List.mem_cons_self p rest)
    have hrest : ∀ q ∈ rest, pathnameResult q.2.pathname req.urlPathname = none :=
      fun q hq => h q (List.mem_cons_of_mem p hq)
    obtain ⟨i, route⟩ := p
    simp only [dispatchGo]
    by_cases h1 : req.error.isSome != route.error
    · simp [h1, ih hrest]
    · by_cases h2 : methodSkip route.method req.method
      · simp [h1, h2, ih hrest]
      · simp only [h1, h2, if_false, if_true, Bool.false_eq_true]
        simp only at hp
        simp [hp, ih hrest]

/-- Helper: the payload of an enumerated-list element is an element of the
underlying list. -/
theorem snd_mem_of_mem_enumFrom {α : Type} :
    ∀ (l : List α) (n : Nat) (p : Nat × α), p ∈ l.enumFrom n → p.2 ∈ l := by
  intro l
  induction l with
  | nil => intro n p hp; simp [List.enumFrom] at hp
  | cons a t ih =>
    intro n p hp
    simp only [List.enumFrom, List.mem_cons] at hp
    rcases hp with hp | hp
    · subst hp; exact List.mem_cons_self a t
    · exact List.mem_cons_of_mem a (ih (n + 1) p hp)

/-- C6 counterexample: a matching route whose handler writes a chunk
(flushing the headers) without ending the response leaves the dispatch loop
with the response unended — the claim's premise — yet the forced ending
keeps status 200, not 500 (the 500 assignment is guarded by
`!response.headersSent`, lines 527-533); the diagnostic body is still
appended. -/
theorem c6_headers_sent_keeps_status_200 :
    (dispatchGo [writeNoEndRoute].enum (passInit reqW) freshResponse).2.1.writableEnded = false ∧
    (dispatchPass [writeNoEndRoute] reqW freshResponse).2.1.statusCode = 200 ∧
    (dispatchPass [writeNoEndRoute] reqW freshResponse).2.1.statusCode ≠ 500 ∧
    (dispatchPass [writeNoEndRoute] reqW freshResponse).2.1.writableEnded = true ∧
    (dispatchPass [writeNoEndRoute] reqW freshResponse).2.1.chunks =
      [("partial" : String), exhaustionMessage] := by
  refine ⟨rfl, rfl, by decide, rfl, rfl⟩

/-- C6 (amended): the dispatcher never hangs — every dispatch pass leaves the
response ended; whenever no route ended the response by the end of the pass,
the fixed diagnostic body is appended, with status 500 (and `text/plain`)
exactly when the response headers were not yet sent; in particular a request
whose pathname matches no route runs zero handlers and gets the full
500-with-diagnostic response. -/
theorem c6_dispatcher_exhaustion {ε : Type} (routes : List (RouteM ε)) (req : Req ε)
    (res : Response) :
    ((dispatchPass routes req res).2.1.writableEnded = true) ∧
    ((dispatchGo routes.enum (passInit req) res).2.1.writableEnded = false →
      (dispatchPass routes req res).2.1.chunks =
        (dispatchGo routes.enum (passInit req) res).2.1.chunks ++ [exhaustionMessage] ∧
      ((dispatchGo routes.enum (passInit req) res).2.1.headersSent = false →
        (dispatchPass routes req res).2.1.statusCode = 500)) ∧
    ((∀ route ∈ routes, pathnameResult route.pathname req.urlPathname = none) →
      dispatchPass routes req freshResponse =
        (passInit req,
          { statusCode := 500, headersSent := true,
            contentType := some ("text/plain; charset=utf-8"),
            chunks := [exhaustionMessage], writableEnded := true }, [])) := by
  refine ⟨?_, ?_, ?_⟩
  · simp only [dispatchPass]
    by_cases h : (dispatchGo routes.enum (passInit req) res).2.1.writableEnded
    · simp [h]
    · simp only [eq_self_iff_true, h, if_false, Bool.false_eq_true]
      by_cases h2 : (dispatchGo routes.enum (passInit req) res).2.1.headersSent <;>
        simp [h2, Response.endR, h]
  · intro h
    simp only [dispatchPass, h, if_false, Bool.false_eq_true]
    by_cases h2 : (dispatchGo routes.enum (passInit req) res).2.1.headersSent <;>
      simp [h2, Response.endR, h]
  · intro h
    have hall : ∀ p ∈ routes.enum, pathnameResult p.2.pathname req.urlPathname = none := by
      intro p hp
      refine h p.2 (snd_mem_of_mem_enumFrom routes 0 p ?_)
      simpa [List.enum] using hp
    have hgo := dispatchGo_no_pathname_match routes.enum (passInit req) freshResponse hall
    unfold dispatchPass
    rw [hgo]
    simp [freshResponse, Response.endR]

/-- C6 witness: the request `GET /b` matches no route in `[routeA]` and gets
the dispatcher-exhaustion 500 with the fixed diagnostic body and an empty
execution trace. -/
theorem c6_dispatcher_exhaustion_witness :
    (∀ route ∈ [routeA], pathnameResult route.pathname reqB.urlPathname = none) ∧
    dispatchPass [routeA] reqB freshResponse =
      (passInit reqB,
        { statusCode := 500, headersSent := true,
          contentType := some ("text/plain; charset=utf-8"),
          chunks := [exhaustionMessage], writableEnded := true }, []) :=
  ⟨by decide, (c6_dispatcher_exhaustion [routeA] reqB freshResponse).2.2 (by decide)⟩

/-- C1 counterexample: with an error route registered *before* a throwing
normal route, dispatching records the thrown value but the error route never
runs — the trace contains only the throwing route's index.  The pass
continues from the route after the throwing one instead of restarting from
the top of the route list (lines 485-520 are a single `for` loop). -/
theorem c1_error_route_before_throw_never_runs :
    (dispatchPass [errorPageRoute, throwRoute] plainReq freshResponse).2.2 = [1] ∧
    (dispatchPass [errorPageRoute, throwRoute] plainReq freshResponse).1.error =
      some ("boom" : String) ∧
    0 ∉ (dispatchPass [errorPageRoute, throwRoute] plainReq freshResponse).2.2 := by
  refine ⟨rfl, rfl, by decide⟩

/-- C1 (amended): when a non-error route handler throws and the response is
not yet ended, the dispatcher records the thrown value into the request's
error field and continues the same pass with the *remaining* routes — it
does not restart from the top, so error routes registered before the
throwing route do not run; from that point on, only routes with
`error = true` can run (in registration order, with the error visible), as
long as no handler clears the error field. -/
theorem c1_error_switches_to_error_routes {ε : Type} :
    (∀ (i : Nat) (route : RouteM ε) (rest : List (Nat × RouteM ε)) (req : Req ε)
        (res : Response) (caps : List (String × String)) (req2 : Req ε) (res2 : Response)
        (e : ε),
      req.error = none → route.error = false →
      methodSkip route.method req.method = false →
      pathnameResult route.pathname req.urlPathname = some caps →
      route.handler { req with pathCaptures := caps } res = (req2, res2, some e) →
      res2.writableEnded = false →
      dispatchGo ((i, route) :: rest) req res =
        ((dispatchGo rest { req2 with error := some e } res2).1,
          (dispatchGo rest { req2 with error := some e } res2).2.1,
          i :: (dispatchGo rest { req2 with error := some e } res2).2.2)) ∧
    (∀ (rest : List (Nat × RouteM ε)) (req : Req ε) (res : Response),
      req.error.isSome = true →
      (∀ p ∈ rest, ∀ (q : Req ε) (s : Response), q.error.isSome = true →
        ((p.2.handler q s).1).error.isSome = true) →
      ∀ j ∈ (dispatchGo rest req res).2.2, ∃ p ∈ rest, p.1 = j ∧ p.2.error = true) := by
  constructor
  · intro i route rest req res caps req2 res2 e h1 h2 h3 h4 h5 h6
    rw [h1] at h5
    simp [dispatchGo, h1, h2, h3, h4, h5, h6]
  · intro rest
    induction rest with
    | nil => intro req res _ _ j hj; simp [dispatchGo] at hj
    | cons p t ih =>
      intro req res herr hpres j hj
      obtain ⟨i, route⟩ := p
      have hpresT : ∀ p ∈ t, ∀ (q : Req ε) (s : Response), q.error.isSome = true →
          ((p.2.handler q s).1).error.isSome = true :=
        fun p hp => hpres p (List.mem_cons_of_mem _ hp)
      simp only [dispatchGo] at hj
      by_cases h1 : (req.error.isSome != route.error) = true
      · rw [if_pos h1] at hj
        obtain ⟨p, hp, hpj⟩ := ih req res herr hpresT j hj
        exact ⟨p, List.mem_cons_of_mem _ hp, hpj⟩
      · have hroute : route.error = true := by
          cases hre : route.error
          · exfalso; apply h1; rw [herr, hre]; rfl
          · rfl
        rw [if_neg h1] at hj
        by_cases h2 : methodSkip route.method req.method = true
        · rw [if_pos h2] at hj
          obtain ⟨p, hp, hpj⟩ := ih req res herr hpresT j hj
          exact ⟨p, List.mem_cons_of_mem _ hp, hpj⟩
        · rw [if_neg h2] at hj
          rcases hcaps : pathnameResult route.pathname req.urlPathname with _ | caps
          · rw [hcaps] at hj
            obtain ⟨p, hp, hpj⟩ := ih req res herr hpresT j hj
            exact ⟨p, List.mem_cons_of_mem _ hp, hpj⟩
          · rw [hcaps] at hj
            simp only at hj
            by_cases hend :
                (route.handler { req with pathCaptures := caps } res).2.1.writableEnded = true
            · rw [if_pos hend] at hj
              simp only [List.mem_singleton] at hj
              exact ⟨(i, route), List.mem_cons_self _ _, hj.symm, hroute⟩
            · rw [if_neg hend] at hj
              simp only [List.mem_cons] at hj
              rcases hj with hj | hj
              · exact ⟨(i, route), List.mem_cons_self _ _, hj.symm, hroute⟩
              · have herr2 :
                    (match (route.handler { req with pathCaptures := caps } res).2.2 with
                      | some e =>
                        { (route.handler { req with pathCaptures := caps } res).1 with
                            error := some e }
                      | none =>
                        (route.handler { req with pathCaptures := caps } res).1 :
                      Req ε).error.isSome = true := by
                  rcases hthrow : (route.handler { req with pathCaptures := caps } res).2.2 with
                      _ | e
                  · simp only [hthrow]
                    exact hpres (i, route) (List.mem_cons_self _ _)
                      { req with pathCaptures := caps } res (by simp [herr])
                  · simp [hthrow]
                obtain ⟨p, hp, hpj⟩ := ih _ _ herr2 hpresT j hj
                exact ⟨p, List.mem_cons_of_mem _ hp, hpj⟩

/-- C1 witness: at the concrete route list `[(1, throwRoute),
(2, errorPageRoute)]`, the throw of route 1 records the error and the pass
continues with the remaining routes only; in the continuation every executed
route is an error route. -/
theorem c1_error_switches_to_error_routes_witness :
    (dispatchGo [(1, throwRoute), (2, errorPageRoute)] plainReq freshResponse =
      ((dispatchGo [(2, errorPageRoute)]
          { plainReq with pathCaptures := [], error := some ("boom") } freshResponse).1,
        (dispatchGo [(2, errorPageRoute)]
          { plainReq with pathCaptures := [], error := some ("boom") } freshResponse).2.1,
        1 :: (dispatchGo [(2, errorPageRoute)]
          { plainReq with pathCaptures := [], error := some ("boom") } freshResponse).2.2)) ∧
    (∀ j ∈ (dispatchGo [(2, errorPageRoute)]
        { plainReq with error := some ("boom") } freshResponse).2.2,
      ∃ p ∈ [((2 : Nat), errorPageRoute)], p.1 = j ∧ p.2.error = true) := by
  constructor
  · exact c1_error_switches_to_error_routes.1 1 throwRoute [(2, errorPageRoute)] plainReq
      freshResponse [] { plainReq with pathCaptures := [] } freshResponse ("boom")
      rfl rfl rfl rfl rfl rfl
  · refine c1_error_switches_to_error_routes.2 [(2, errorPageRoute)]
      { plainReq with error := some ("boom") } freshResponse rfl ?_
    intro p hp q s hq
    simp only [List.mem_singleton] at hp
    subst hp
    simpa [errorPageRoute] using hq

/-- Helper: if exactly one element of a list satisfies `p` and `x` is a
member satisfying `p`, every member satisfying `p` is `x`. -/
theorem countP_one_unique {α : Type} (p : α → Bool) :
    ∀ (l : List α), l.countP p = 1 → ∀ x ∈ l, p x = true → ∀ y ∈ l, p y = true → y = x := by
  intro l
  induction l with
  | nil => intro h x hx; simp at hx
  | cons a t ih =>
    intro h x hx hpx y hy hpy
    rw [List.countP_cons] at h
    by_cases hpa : p a = true
    · have h1 : t.countP p + 1 = 1 := by simpa [hpa] using h
      have ht : t.countP p = 0 := by omega
      have hnot : ∀ z ∈ t, p z = true → False := by
        intro z hz hpz
        have := List.countP_eq_zero.1 ht z hz
        simp [hpz] at this
      have hxa : x = a := by
        rcases List.mem_cons.1 hx with h1 | h1
        · exact h1
        · exact absurd hpx (by intro hc; exact hnot x h1 hc)
      have hya : y = a := by
        rcases List.mem_cons.1 hy with h1 | h1
        · exact h1
        · exact absurd hpy (by intro hc; exact hnot y h1 hc)
      rw [hya, hxa]
    · have hpa0 : p a = false := by
        cases hpa2 : p a
        · rfl
        · exact absurd hpa2 hpa
      rw [hpa0] at h
      simp only [if_false, Bool.false_eq_true] at h
      have hxt : x ∈ t := by
        rcases List.mem_cons.1 hx with h1 | h1
        · exfalso; rw [h1] at hpx; rw [hpx] at hpa0; cases hpa0
        · exact h1
      have hyt : y ∈ t := by
        rcases List.mem_cons.1 hy with h1 | h1
        · exfalso; rw [h1] at hpy; rw [hpy] at hpa0; cases hpa0
        · exact h1
      exact ih (by omega) x hxt hpx y hyt hpy

/-- Helper: `find?` returns the member `x` when `x` satisfies `p` and is the
only member doing so. -/
theorem find_of_unique {α : Type} (p : α → Bool) :
    ∀ (l : List α), ∀ x ∈ l, p x = true → (∀ y ∈ l, p y = true → y = x) →
      l.find? p = some x := by
  intro l
  induction l with
  | nil => intro x hx; simp at hx
  | cons a t ih =>
    intro x hx hpx huniq
    by_cases hpa : p a = true
    · have : a = x := huniq a (List.mem_cons_self a t) hpa
      rw [List.find?_cons_of_pos _ hpa, this]
    · have hpa0 : p a = false := by
        cases hpa2 : p a
        · rfl
        · exact absurd hpa2 hpa
      rw [List.find?_cons_of_neg _ (by simp [hpa0])]
      have hxt : x ∈ t := by
        rcases List.mem_cons.1 hx with h1 | h1
        · exfalso; rw [h1] at hpx; rw [hpx] at hpa0; cases hpa0
        · exact h1
      exact ih x hxt hpx (fun y hy hpy => huniq y (List.mem_cons_of_mem a hy) hpy)

/-- Helper: decomposition of a successful `find?`: the list splits as
`l1 ++ x :: l2` with nothing in `l1` satisfying `p`, and `replaceFirst`
rewrites exactly the found element. -/
theorem replaceFirst_decomp {α : Type} (p : α → Bool) :
    ∀ (l : List α) (x : α), l.find? p = some x →
      ∃ l1 l2, l = l1 ++ x :: l2 ∧ (∀ y ∈ l1, p y = false) ∧
        ∀ f : α → α, replaceFirst p f l = l1 ++ f x :: l2 := by
  intro l
  induction l with
  | nil => intro x hx; simp [List.find?] at hx
  | cons a t ih =>
    intro x hx
    by_cases hpa : p a = true
    · rw [List.find?_cons_of_pos _ hpa] at hx
      have hax : a = x := Option.some_inj.1 hx
      refine ⟨[], t, ?_, ?_, ?_⟩
      · rw [← hax]; rfl
      · intro y hy; simp at hy
      · intro f
        rw [← hax]
        simp [replaceFirst, hpa]
    · have hpa0 : p a = false := by
        cases hpa2 : p a
        · rfl
        · exact absurd hpa2 hpa
      rw [List.find?_cons_of_neg _ (by simp [hpa0])] at hx
      obtain ⟨l1, l2, heq, hnone, hrep⟩ := ih x hx
      refine ⟨a :: l1, l2, by rw [heq]; rfl, ?_, ?_⟩
      · intro y hy
        rcases List.mem_cons.1 hy with h1 | h1
        · rw [h1]; exact hpa0
        · exact hnone y h1
      · intro f
        simp [replaceFirst, hpa0, hrep f]

/-- Helper: `find?` over `l1 ++ x :: l2` when nothing in `l1` satisfies the
predicate and `x` does. -/
theorem find?_append_cons {α : Type} (q : α → Bool) :
    ∀ (l1 : List α) (x : α) (l2 : List α), (∀ y ∈ l1, q y = false) → q x = true →
      (l1 ++ x :: l2).find? q = some x := by
  intro l1
  induction l1 with
  | nil => intro x l2 _ hqx; simpa using List.find?_cons_of_pos _ hqx
  | cons a t ih =>
    intro x l2 hnone hqx
    have hqa : q a = false := hnone a (List.mem_cons_self a t)
    rw [List.cons_append, List.find?_cons_of_neg _ (by simp [hqa])]
    exact ih x l2 (fun y hy => hnone y (List.mem_cons_of_mem a hy)) hqx

/-- C3: for an established live connection (unique for its id in the
registry), a second GET request carrying the same id and an equal URL href
takes over: the outcome is `established`, the previous response's write path
is closed (its tag joins `closedResponseTags`), the connection's current
request/response become the new pair with the abandonment timer cleared, and
the registry still holds exactly one connection with that id (and no more
connections than before); a differing URL href is rejected with status 400
and the registry is untouched. -/
theorem c3_reattachment_takes_over (st : Registry) (lc : LiveConn) (req : LCRequest)
    (res : Response)
    (hmem : lc ∈ st.conns)
    (huniq : st.conns.countP (fun c => c.id == lc.id) = 1)
    (hestab : lc.hasEndOverride = true)
    (hmethod : req.method = ("GET" : String))
    (hvalid : validLiveConnectionId req.lcId = true)
    (hid : req.lcId = lc.id) :
    (req.urlHref = lc.urlHref →
      (handleLiveConnectionHeader st req res).2.2 = LCOutcome.established ∧
      lc.responseTag ∈ (handleLiveConnectionHeader st req res).1.closedResponseTags ∧
      (∃ lc2 ∈ (handleLiveConnectionHeader st req res).1.conns,
        lc2.id = lc.id ∧ lc2.requestTag = req.requestTag ∧
        lc2.responseTag = req.responseTag ∧ lc2.deleteTimeout = none) ∧
      (handleLiveConnectionHeader st req res).1.conns.countP (fun c => c.id == lc.id) = 1 ∧
      (handleLiveConnectionHeader st req res).1.conns.length = st.conns.length) ∧
    (req.urlHref ≠ lc.urlHref →
      handleLiveConnectionHeader st req res =
        (st, liveConnectionReject res unmatchedHrefMessage,
          LCOutcome.rejected400 unmatchedHrefMessage)) := by
  have huniq2 : ∀ y ∈ st.conns, (y.id == req.lcId) = true → y = lc := by
    intro y hy hpy
    exact countP_one_unique (fun c => c.id == lc.id) st.conns huniq lc hmem (by simp) y hy
      (by rw [← hid]; exact hpy)
  have hfind : st.conns.find? (fun c => c.id == req.lcId) = some lc :=
    find_of_unique _ st.conns lc hmem (by simp [hid]) huniq2
  obtain ⟨l1, l2, heq, hl1, hrep⟩ := replaceFirst_decomp _ st.conns lc hfind
  have hcount12 : l1.countP (fun c => c.id == lc.id) = 0 ∧
      l2.countP (fun c => c.id == lc.id) = 0 := by
    have : (l1 ++ lc :: l2).countP (fun c => c.id == lc.id) = 1 := by rw [← heq]; exact huniq
    rw [List.countP_append, List.countP_cons] at this
    simp only [beq_self_eq_true, if_pos] at this
    omega
  constructor
  · intro hhref
    have hbne : (lc.urlHref != req.urlHref) = false := by rw [hhref]; simp
    have hout : (handleLiveConnectionHeader st req res).2.2 = LCOutcome.established := by
      simp [handleLiveConnectionHeader, hmethod, hvalid, hfind, hbne]
    have hclosed : (handleLiveConnectionHeader st req res).1.closedResponseTags =
        lc.responseTag :: st.closedResponseTags := by
      simp [handleLiveConnectionHeader, hmethod, hvalid, hfind, hbne, hestab]
    have hconns : (handleLiveConnectionHeader st req res).1.conns =
        l1 ++ ({ lc with requestTag := req.requestTag, responseTag := req.responseTag,
                         deleteTimeout := none, hasEndOverride := true,
                         establish := true } : LiveConn) :: l2 := by
      have hstep : (handleLiveConnectionHeader st req res).1.conns =
          replaceFirst (fun c => c.id == req.lcId)
            (fun c => { c with requestTag := req.requestTag, responseTag := req.responseTag,
                               deleteTimeout := none, hasEndOverride := true,
                               establish := true })
            st.conns := by
        simp [handleLiveConnectionHeader, hmethod, hvalid, hfind, hbne]
      rw [hstep]
      exact hrep _
    refine ⟨hout, ?_, ?_, ?_, ?_⟩
    · rw [hclosed]
      exact List.mem_cons_self _ _
    · rw [hconns]
      exact ⟨_, List.mem_append.2 (Or.inr (List.mem_cons_self _ _)), rfl, rfl, rfl, rfl⟩
    · rw [hconns, List.countP_append, List.countP_cons]
      have h1 := hcount12.1
      have h2 := hcount12.2
      simp only [beq_self_eq_true, if_pos]
      omega
    · rw [hconns, heq]
      simp
  · intro hne
    have hbne : (lc.urlHref != req.urlHref) = true := by
      simp only [bne_iff_ne, ne_eq]
      intro h
      exact hne h.symm
    simp [handleLiveConnectionHeader, hmethod, hvalid, hfind, hbne]

/-- C3 witness: the concrete registry `exRegistry` with its established
connection `exConn` and the matching reattachment request `exReattachReq`. -/
theorem c3_reattachment_takes_over_witness :
    (exConn ∈ exRegistry.conns ∧
      exRegistry.conns.countP (fun c => c.id == exConn.id) = 1 ∧
      exConn.hasEndOverride = true ∧
      exReattachReq.method = ("GET" : String) ∧
      validLiveConnectionId exReattachReq.lcId = true ∧
      exReattachReq.lcId = exConn.id ∧
      exReattachReq.urlHref = exConn.urlHref) ∧
    ((handleLiveConnectionHeader exRegistry exReattachReq freshResponse).2.2 =
        LCOutcome.established ∧
      exConn.responseTag ∈
        (handleLiveConnectionHeader exRegistry exReattachReq freshResponse).1.closedResponseTags ∧
      (∃ lc2 ∈ (handleLiveConnectionHeader exRegistry exReattachReq freshResponse).1.conns,
        lc2.id = exConn.id ∧ lc2.requestTag = exReattachReq.requestTag ∧
        lc2.responseTag = exReattachReq.responseTag ∧ lc2.deleteTimeout = none) ∧
      (handleLiveConnectionHeader exRegistry exReattachReq freshResponse).1.conns.countP
        (fun c => c.id == exConn.id) = 1 ∧
      (handleLiveConnectionHeader exRegistry exReattachReq freshResponse).1.conns.length =
        exRegistry.conns.length) :=
  ⟨⟨by decide, by decide, by decide, by decide, by decide, by decide, by decide⟩,
    (c3_reattachment_takes_over exRegistry exConn exReattachReq freshResponse
      (by decide) (by decide) (by decide) (by decide) (by decide) (by decide)).1 (by decide)⟩

/-- C5: when the current response of a live connection (unique for its id)
closes, the
abandonment timer is armed with the 30-second grace delay; if it fires
without a reattachment, the connection is removed from the registry; if a
matching reattachment arrives first, the timer is cleared and no later
timer firing deletes the connection. -/
theorem c5_abandonment_timer (st : Registry) (lc : LiveConn)
    (hmem : lc ∈ st.conns)
    (huniq : st.conns.countP (fun c => c.id == lc.id) = 1) :
    liveConnectionDeleteDelayMs = 30 * 1000 ∧
    (∃ lc1 ∈ (liveConnectionSocketClose st lc.id lc.requestTag).conns,
      lc1.id = lc.id ∧
      lc1.deleteTimeout = some (st.nextTimerId, liveConnectionDeleteDelayMs)) ∧
    (∀ c ∈ (fireDeleteTimeout (liveConnectionSocketClose st lc.id lc.requestTag)
        st.nextTimerId).conns, c.id ≠ lc.id) ∧
    (∀ (req : LCRequest) (res : Response),
      req.method = ("GET" : String) → validLiveConnectionId req.lcId = true →
      req.lcId = lc.id → req.urlHref = lc.urlHref →
      (∃ lc2 ∈ (handleLiveConnectionHeader
          (liveConnectionSocketClose st lc.id lc.requestTag) req res).1.conns,
        lc2.id = lc.id ∧ lc2.deleteTimeout = none) ∧
      (∀ tid : Nat,
        ∃ lc3 ∈ (fireDeleteTimeout (handleLiveConnectionHeader
            (liveConnectionSocketClose st lc.id lc.requestTag) req res).1 tid).conns,
          lc3.id = lc.id)) := by
  have hclose : (lc.id == lc.id && lc.requestTag == lc.requestTag) = true := by simp
  have huniq2 : ∀ y ∈ st.conns, (y.id == lc.id && y.requestTag == lc.requestTag) = true →
      y = lc := by
    intro y hy hpy
    refine countP_one_unique (fun c => c.id == lc.id) st.conns huniq lc hmem (by simp) y hy ?_
    simp only [Bool.and_eq_true] at hpy
    exact hpy.1
  have hfind : st.conns.find? (fun c => c.id == lc.id && c.requestTag == lc.requestTag) =
      some lc :=
    find_of_unique _ st.conns lc hmem hclose huniq2
  obtain ⟨l1, l2, heq, hl1, hrep⟩ := replaceFirst_decomp _ st.conns lc hfind
  have hcount12 : l1.countP (fun c => c.id == lc.id) = 0 ∧
      l2.countP (fun c => c.id == lc.id) = 0 := by
    have h1 : (l1 ++ lc :: l2).countP (fun c => c.id == lc.id) = 1 := by
      rw [← heq]; exact huniq
    rw [List.countP_append, List.countP_cons] at h1
    simp only [beq_self_eq_true, if_pos] at h1
    omega
  have hid12 : ∀ c, (c ∈ l1 ∨ c ∈ l2) → c.id ≠ lc.id := by
    intro c hc hcid
    rcases hc with hc | hc
    · exact (List.countP_eq_zero.1 hcount12.1 c hc) (by simp [hcid])
    · exact (List.countP_eq_zero.1 hcount12.2 c hc) (by simp [hcid])
  have harmed : (liveConnectionSocketClose st lc.id lc.requestTag).conns =
      l1 ++ ({ lc with deleteTimeout := some (st.nextTimerId, liveConnectionDeleteDelayMs) } : LiveConn) :: l2 := by
    simp only [liveConnectionSocketClose]
    exact hrep _
  have harmedNext : (liveConnectionSocketClose st lc.id lc.requestTag).nextTimerId =
      st.nextTimerId + 1 := rfl
  refine ⟨rfl, ?_, ?_, ?_⟩
  · rw [harmed]
    exact ⟨_, List.mem_append.2 (Or.inr (List.mem_cons_self _ _)), rfl, rfl⟩
  · intro c hc hcid
    simp only [fireDeleteTimeout, harmed, List.mem_filter] at hc
    obtain ⟨hcmem, hckeep⟩ := hc
    rcases List.mem_append.1 hcmem with hc1 | hc2
    · exact hid12 c (Or.inl hc1) hcid
    · rcases List.mem_cons.1 hc2 with hceq | hc2
      · rw [hceq] at hckeep
        simp at hckeep
      · exact hid12 c (Or.inr hc2) hcid
  · intro req res hmethod hvalid hidreq hhref
    have hmem1 : ({ lc with deleteTimeout := some (st.nextTimerId, liveConnectionDeleteDelayMs) } : LiveConn) ∈
        (liveConnectionSocketClose st lc.id lc.requestTag).conns := by
      rw [harmed]
      exact List.mem_append.2 (Or.inr (List.mem_cons_self _ _))
    have hfind1 : (liveConnectionSocketClose st lc.id lc.requestTag).conns.find?
        (fun c => c.id == req.lcId) =
        some ({ lc with deleteTimeout := some (st.nextTimerId, liveConnectionDeleteDelayMs) } : LiveConn) := by
      rw [harmed]
      refine find?_append_cons _ l1 _ l2 ?_ (by simp [hidreq])
      intro y hy
      have : y.id ≠ lc.id := hid12 y (Or.inl hy)
      rw [hidreq]
      simp [this]
    obtain ⟨m1, m2, heq2, hm1, hrep2⟩ :=
      replaceFirst_decomp _ (liveConnectionSocketClose st lc.id lc.requestTag).conns _ hfind1
    have hbne : (({ lc with deleteTimeout := some (st.nextTimerId, liveConnectionDeleteDelayMs) } : LiveConn).urlHref != req.urlHref) = false := by
      rw [hhref]
      simp
    have hconns2 : (handleLiveConnectionHeader
        (liveConnectionSocketClose st lc.id lc.requestTag) req res).1.conns =
        m1 ++ ({ lc with requestTag := req.requestTag, responseTag := req.responseTag,
                         deleteTimeout := none, hasEndOverride := true,
                         establish := true } : LiveConn) :: m2 := by
      have hstep : (handleLiveConnectionHeader
          (liveConnectionSocketClose st lc.id lc.requestTag) req res).1.conns =
          replaceFirst (fun c => c.id == req.lcId)
            (fun c => { c with requestTag := req.requestTag, responseTag := req.responseTag,
                               deleteTimeout := none, hasEndOverride := true,
                               establish := true })
            (liveConnectionSocketClose st lc.id lc.requestTag).conns := by
        simp [handleLiveConnectionHeader, hmethod, hvalid, hfind1, hbne]
      rw [hstep, hrep2 _]
    constructor
    · rw [hconns2]
      exact ⟨_, List.mem_append.2 (Or.inr (List.mem_cons_self _ _)), rfl, rfl⟩
    · intro tid
      refine ⟨({ lc with requestTag := req.requestTag, responseTag := req.responseTag,
                         deleteTimeout := none, hasEndOverride := true,
                         establish := true } : LiveConn), ?_, rfl⟩
      simp only [fireDeleteTimeout, hconns2, List.mem_filter]
      refine ⟨List.mem_append.2 (Or.inr (List.mem_cons_self _ _)), ?_⟩
      simp

/-- C5 witness: the concrete registry `exRegistry`: socket close arms the
timer, firing it deletes the connection, and reattaching via
`exReattachReq` instead clears the timer so no firing deletes it. -/
theorem c5_abandonment_timer_witness :
    (exConn ∈ exRegistry.conns ∧
      exRegistry.conns.countP (fun c => c.id == exConn.id) = 1 ∧
      exConn.deleteTimeout = none) ∧
    liveConnectionDeleteDelayMs = 30 * 1000 ∧
    (∃ lc1 ∈ (liveConnectionSocketClose exRegistry exConn.id exConn.requestTag).conns,
      lc1.id = exConn.id ∧
      lc1.deleteTimeout = some (exRegistry.nextTimerId, liveConnectionDeleteDelayMs)) ∧
    (∀ c ∈ (fireDeleteTimeout (liveConnectionSocketClose exRegistry exConn.id exConn.requestTag)
        exRegistry.nextTimerId).conns, c.id ≠ exConn.id) ∧
    (∃ lc2 ∈ (handleLiveConnectionHeader
        (liveConnectionSocketClose exRegistry exConn.id exConn.requestTag) exReattachReq
        freshResponse).1.conns,
      lc2.id = exConn.id ∧ lc2.deleteTimeout = none) := by
  have h := c5_abandonment_timer exRegistry exConn (by decide) (by decide)
  refine ⟨⟨by decide, by decide, by decide⟩, h.1, h.2.1, h.2.2.1, ?_⟩
  exact (h.2.2.2 exReattachReq freshResponse (by decide) (by decide) (by decide) (by decide)).1

/-- Helper: the list of descriptive 413 messages. -/
def limit413Messages : List String :=
  [fieldTooLargeMessage, fileNameTooLargeMessage, tooManyFieldsMessage, tooManyFilesMessage,
    fileTooLargeMessage]

/-- Helper: the stream phase either settles with a descriptive 413, or — when
some event violated a limit or a collected file was truncated — every
successful outcome still carries a truncated file for the post-close
check. -/
theorem ingestScan_violation {events : List BusboyEvent} :
    ∀ {body : Body} {files : List FileInfo} {r : Except (Nat × String) (Body × List FileInfo)},
      ingestScan events body files = some r →
      ((∃ e ∈ events, eventViolatesLimit e = true) ∨ files.any (fun f => f.truncated) = true) →
      (∃ msg, r = .error (413, msg) ∧ msg ∈ limit413Messages) ∨
        (∃ b fs, r = .ok (b, fs) ∧ fs.any (fun f => f.truncated) = true) := by
  induction events with
  | nil =>
    intro body files r hscan hviol
    simp only [ingestScan, Option.some_inj] at hscan
    rcases hviol with hviol | hviol
    · obtain ⟨e, he, _⟩ := hviol
      simp at he
    · exact Or.inr ⟨body, files, hscan.symm, hviol⟩
  | cons e rest ih =>
    intro body files r hscan hviol
    cases e with
    | field name value nT vT =>
      by_cases hflags : (nT || vT) = true
      · simp only [ingestScan, hflags, if_pos, Option.some_inj] at hscan
        exact Or.inl ⟨fieldTooLargeMessage, hscan.symm, by simp [limit413Messages]⟩
      · simp only [ingestScan, hflags, if_neg, Bool.false_eq_true] at hscan
        rcases hadd : addBodyValue body name (.str value) with _ | body1
        · rw [hadd] at hscan; cases hscan
        · rw [hadd] at hscan
          refine ih hscan ?_
          rcases hviol with hviol | hviol
          · obtain ⟨e2, he2, hv2⟩ := hviol
            rcases List.mem_cons.1 he2 with he2 | he2
            · exfalso
              rw [he2] at hv2
              simp only [eventViolatesLimit] at hv2
              rw [hv2] at hflags
              exact hflags rfl
            · exact Or.inl ⟨e2, he2, hv2⟩
          · exact Or.inr hviol
    | file name info =>
      by_cases hlen : (info.filename.data.length > 200 : Bool) = true
      · have hlen2 : info.filename.data.length > 200 := by simpa using hlen
        simp only [ingestScan, if_pos, Option.some_inj, hlen2] at hscan
        exact Or.inl ⟨fileNameTooLargeMessage, hscan.symm, by simp [limit413Messages]⟩
      · have hlen2 : ¬(info.filename.data.length > 200) := by simpa using hlen
        simp only [ingestScan, hlen2, if_neg, not_false_iff] at hscan
        rcases hadd : addBodyValue body name (.file info) with _ | body1
        · rw [hadd] at hscan; cases hscan
        · rw [hadd] at hscan
          refine ih hscan ?_
          rcases hviol with hviol | hviol
          · obtain ⟨e2, he2, hv2⟩ := hviol
            rcases List.mem_cons.1 he2 with he2 | he2
            · rw [he2] at hv2
              simp only [eventViolatesLimit] at hv2
              have htr : info.truncated = true := by
                rcases Bool.or_eq_true_iff.1 hv2 with h1 | h1
                · exfalso; rw [h1] at hlen; exact hlen rfl
                · exact h1
              refine Or.inr ?_
              rw [List.any_append]
              simp [htr]
            · exact Or.inl ⟨e2, he2, hv2⟩
          · refine Or.inr ?_
            rw [List.any_append]
            simp [hviol]
    | fieldsLimit =>
      simp only [ingestScan, Option.some_inj] at hscan
      exact Or.inl ⟨tooManyFieldsMessage, hscan.symm, by simp [limit413Messages]⟩
    | filesLimit =>
      simp only [ingestScan, Option.some_inj] at hscan
      exact Or.inl ⟨tooManyFilesMessage, hscan.symm, by simp [limit413Messages]⟩

/-- C7: whenever the body ingestion runs to a settled outcome and some busboy
event violated a configured limit (field name/value truncation, filename
length, file-stream truncation, field count, file count), the outcome is a
413 failure with one of the descriptive messages — never a partial success.
This covers the truncated-file case detected only by the post-close
`Promise.all` check. -/
theorem c7_limit_violations_yield_413 (events : List BusboyEvent)
    (r : Except (Nat × String) Body)
    (h : ingestBody events = some r)
    (hv : ∃ e ∈ events, eventViolatesLimit e = true) :
    ∃ msg, r = .error (413, msg) ∧ msg ∈ limit413Messages := by
  simp only [ingestBody, Option.map_eq_some'] at h
  obtain ⟨r0, hscan, hr⟩ := h
  rcases ingestScan_violation hscan (Or.inl hv) with hcase | hcase
  · obtain ⟨msg, hmsg, hmem⟩ := hcase
    rw [hmsg] at hr
    exact ⟨msg, hr.symm, hmem⟩
  · obtain ⟨b, fs, hok, htr⟩ := hcase
    rw [hok] at hr
    simp only [htr, if_pos] at hr
    exact ⟨fileTooLargeMessage, hr.symm, by simp [limit413Messages]⟩

/-- C7 witness: a single file truncated by the `fileSize` limit — detected
only after the parse stream signaled completion — yields the 413 with the
`File too large.` message. -/
theorem c7_limit_violations_yield_413_witness :
    (ingestBody truncatedFileEvents =
      some (.error (413, fileTooLargeMessage)) ∧
      ∃ e ∈ truncatedFileEvents, eventViolatesLimit e = true) ∧
    ∃ msg, (Except.error (413, fileTooLargeMessage) : Except (Nat × String) Body) =
      .error (413, msg) ∧ msg ∈ limit413Messages :=
  ⟨⟨by rfl, by decide⟩,
    c7_limit_violations_yield_413 truncatedFileEvents _ (by rfl) (by decide)⟩

/-- Helper: looking up the key just set. -/
theorem assocLookup_assocSet_self {α : Type} (l : List (String × α)) (k : String) (v : α) :
    assocLookup (assocSet l k v) k = some v := by
  induction l with
  | nil => simp [assocSet, assocLookup]
  | cons p rest ih =>
    obtain ⟨k0, v0⟩ := p
    by_cases hk : (k0 == k) = true
    · simp [assocSet, assocLookup, hk]
    · simp only [assocSet, assocLookup, hk, Bool.false_eq_true, if_neg, not_false_iff]
      exact ih

/-- Helper: setting one key leaves other keys' lookups unchanged. -/
theorem assocLookup_assocSet_other {α : Type} (l : List (String × α)) (k k' : String) (v : α)
    (h : k' ≠ k) : assocLookup (assocSet l k v) k' = assocLookup l k' := by
  have hkk : (k == k') = false := beq_eq_false_iff_ne.2 (fun heq => h heq.symm)
  induction l with
  | nil => simp [assocSet, assocLookup, hkk]
  | cons p rest ih =>
    obtain ⟨k0, v0⟩ := p
    by_cases hk : (k0 == k) = true
    · have hk0 : k0 = k := by simpa using hk
      simp only [assocSet, hk, if_pos]
      simp only [assocLookup]
      rw [hk0, hkk]
      simp
    · simp only [assocSet, hk, Bool.false_eq_true, if_neg, not_false_iff]
      simp only [assocLookup]
      by_cases hk0 : (k0 == k') = true
      · rw [if_pos hk0, if_pos hk0]
      · rw [if_neg (by simpa using hk0), if_neg (by simpa using hk0)]
        exact ih

/-- Helper: a body-entry assignment for a name stored under a different key
leaves that key's lookup unchanged. -/
theorem addBodyValue_lookup_other (body : Body) (name : String) (v : BodyScalar)
    (body1 : Body) (key : String)
    (hadd : addBodyValue body name v = some body1) (hne : storageKey name ≠ key) :
    assocLookup body1 key = assocLookup body key := by
  simp only [addBodyValue] at hadd
  simp only [storageKey] at hne
  by_cases hs : strEndsWith name ("[]") = true
  · rw [if_pos hs] at hadd
    rw [if_pos hs] at hne
    rcases hcur : assocLookup body (strDropRight name 2) with _ | bv
    · rw [hcur] at hadd
      simp only [Option.some_inj] at hadd
      rw [← hadd]
      exact assocLookup_assocSet_other body (strDropRight name 2) key _ (fun h => hne h.symm)
    · rw [hcur] at hadd
      cases bv with
      | scalar w => cases hadd
      | array vs =>
        simp only [Option.some_inj] at hadd
        rw [← hadd]
        exact assocLookup_assocSet_other body (strDropRight name 2) key _ (fun h => hne h.symm)
  · rw [if_neg hs] at hadd
    rw [if_neg hs] at hne
    simp only [Option.some_inj] at hadd
    rw [← hadd]
    exact assocLookup_assocSet_other body name key _ (fun h => hne h.symm)

/-- Helper: a key used exclusively with the `[]` suffix accumulates its
values, in stream order, into the array state. -/
theorem ingestScan_suffixed (key : String) :
    ∀ (events : List BusboyEvent) (body0 : Body) (files0 : List FileInfo)
      (bodyOut : Body) (filesOut : List FileInfo) (vs0 : List BodyScalar),
      ingestScan events body0 files0 = some (.ok (bodyOut, filesOut)) →
      (∀ e ∈ events, ∀ n, busboyEventName e = some n → storageKey n = key →
        strEndsWith n ("[]") = true) →
      assocLookup body0 key = arrayStateOf vs0 →
      assocLookup bodyOut key = arrayStateOf (vs0 ++ bodyValuesFor key events) := by
  intro events
  induction events with
  | nil =>
    intro body0 files0 bodyOut filesOut vs0 hscan hsuf hinv
    simp only [ingestScan, Option.some_inj, Except.ok.injEq, Prod.mk.injEq] at hscan
    rw [← hscan.1]
    simpa [bodyValuesFor] using hinv
  | cons e rest ih =>
    intro body0 files0 bodyOut filesOut vs0 hscan hsuf hinv
    have hsufRest : ∀ e2 ∈ rest, ∀ n, busboyEventName e2 = some n → storageKey n = key →
        strEndsWith n ("[]") = true :=
      fun e2 he2 => hsuf e2 (List.mem_cons_of_mem e he2)
    cases e with
    | field name value nT vT =>
      by_cases hflags : (nT || vT) = true
      · simp only [ingestScan, hflags, if_pos, Option.some_inj] at hscan
        cases hscan
      · simp only [ingestScan, hflags, Bool.false_eq_true, if_neg, not_false_iff] at hscan
        rcases hadd : addBodyValue body0 name (.str value) with _ | body1
        · rw [hadd] at hscan; cases hscan
        · rw [hadd] at hscan
          by_cases hkey : storageKey name = key
          · have hsufx : strEndsWith name ("[]") = true :=
              hsuf (.field name value nT vT) (List.mem_cons_self _ _) name rfl hkey
            have hdrop : strDropRight name 2 = key := by
              simpa [storageKey, hsufx] using hkey
            simp only [addBodyValue, hsufx, if_pos, hdrop] at hadd
            have hval : bodyValuesFor key (.field name value nT vT :: rest) =
                BodyScalar.str value :: bodyValuesFor key rest := by
              simp [bodyValuesFor, hkey]
            have hinv1 : assocLookup body1 key = arrayStateOf (vs0 ++ [BodyScalar.str value]) := by
              cases vs0 with
              | nil =>
                simp only [arrayStateOf] at hinv
                rw [hinv] at hadd
                simp only [Option.some_inj] at hadd
                rw [← hadd, assocLookup_assocSet_self]
                rfl
              | cons v0 t0 =>
                simp only [arrayStateOf] at hinv
                rw [hinv] at hadd
                simp only [Option.some_inj] at hadd
                rw [← hadd, assocLookup_assocSet_self]
                rfl
            have := ih body1 files0 bodyOut filesOut (vs0 ++ [BodyScalar.str value]) hscan
              hsufRest hinv1
            rw [hval, this]
            congr 1
            simp
          · have hlook : assocLookup body1 key = assocLookup body0 key :=
              addBodyValue_lookup_other body0 name _ body1 key hadd hkey
            have hval : bodyValuesFor key (.field name value nT vT :: rest) =
                bodyValuesFor key rest := by
              simp [bodyValuesFor, hkey]
            rw [hval]
            exact ih body1 files0 bodyOut filesOut vs0 hscan hsufRest (hlook.trans hinv)
    | file name info =>
      by_cases hlen : info.filename.data.length > 200
      · simp only [ingestScan, hlen, if_pos, Option.some_inj] at hscan
        cases hscan
      · simp only [ingestScan, hlen, if_neg, not_false_iff] at hscan
        rcases hadd : addBodyValue body0 name (.file info) with _ | body1
        · rw [hadd] at hscan; cases hscan
        · rw [hadd] at hscan
          by_cases hkey : storageKey name = key
          · have hsufx : strEndsWith name ("[]") = true :=
              hsuf (.file name info) (List.mem_cons_self _ _) name rfl hkey
            have hdrop : strDropRight name 2 = key := by
              simpa [storageKey, hsufx] using hkey
            simp only [addBodyValue, hsufx, if_pos, hdrop] at hadd
            have hval : bodyValuesFor key (.file name info :: rest) =
                BodyScalar.file info :: bodyValuesFor key rest := by
              simp [bodyValuesFor, hkey]
            have hinv1 : assocLookup body1 key = arrayStateOf (vs0 ++ [BodyScalar.file info]) := by
              cases vs0 with
              | nil =>
                simp only [arrayStateOf] at hinv
                rw [hinv] at hadd
                simp only [Option.some_inj] at hadd
                rw [← hadd, assocLookup_assocSet_self]
                rfl
              | cons v0 t0 =>
                simp only [arrayStateOf] at hinv
                rw [hinv] at hadd
                simp only [Option.some_inj] at hadd
                rw [← hadd, assocLookup_assocSet_self]
                rfl
            have := ih body1 (files0 ++ [info]) bodyOut filesOut
              (vs0 ++ [BodyScalar.file info]) hscan hsufRest hinv1
            rw [hval, this]
            congr 1
            simp
          · have hlook : assocLookup body1 key = assocLookup body0 key :=
              addBodyValue_lookup_other body0 name _ body1 key hadd hkey
            have hval : bodyValuesFor key (.file name info :: rest) =
                bodyValuesFor key rest := by
              simp [bodyValuesFor, hkey]
            rw [hval]
            exact ih body1 (files0 ++ [info]) bodyOut filesOut vs0 hscan hsufRest
              (hlook.trans hinv)
    | fieldsLimit =>
      simp only [ingestScan, Option.some_inj] at hscan
      cases hscan
    | filesLimit =>
      simp only [ingestScan, Option.some_inj] at hscan
      cases hscan

/-- Helper: a key used exclusively without the `[]` suffix holds the
last-arrived scalar. -/
theorem ingestScan_unsuffixed (key : String) :
    ∀ (events : List BusboyEvent) (body0 : Body) (files0 : List FileInfo)
      (bodyOut : Body) (filesOut : List FileInfo) (c0 : Option BodyScalar),
      ingestScan events body0 files0 = some (.ok (bodyOut, filesOut)) →
      (∀ e ∈ events, ∀ n, busboyEventName e = some n → storageKey n = key →
        strEndsWith n ("[]") = false) →
      assocLookup body0 key = scalarStateOf c0 →
      assocLookup bodyOut key =
        scalarStateOf ((bodyValuesFor key events).foldl (fun _ v => some v) c0) := by
  intro events
  induction events with
  | nil =>
    intro body0 files0 bodyOut filesOut c0 hscan hsuf hinv
    simp only [ingestScan, Option.some_inj, Except.ok.injEq, Prod.mk.injEq] at hscan
    rw [← hscan.1]
    simpa [bodyValuesFor] using hinv
  | cons e rest ih =>
    intro body0 files0 bodyOut filesOut c0 hscan hsuf hinv
    have hsufRest : ∀ e2 ∈ rest, ∀ n, busboyEventName e2 = some n → storageKey n = key →
        strEndsWith n ("[]") = false :=
      fun e2 he2 => hsuf e2 (List.mem_cons_of_mem e he2)
    cases e with
    | field name value nT vT =>
      by_cases hflags : (nT || vT) = true
      · simp only [ingestScan, hflags, if_pos, Option.some_inj] at hscan
        cases hscan
      · simp only [ingestScan, hflags, Bool.false_eq_true, if_neg, not_false_iff] at hscan
        rcases hadd : addBodyValue body0 name (.str value) with _ | body1
        · rw [hadd] at hscan; cases hscan
        · rw [hadd] at hscan
          by_cases hkey : storageKey name = key
          · have hsufx : strEndsWith name ("[]") = false :=
              hsuf (.field name value nT vT) (List.mem_cons_self _ _) name rfl hkey
            have hname : name = key := by simpa [storageKey, hsufx] using hkey
            simp only [addBodyValue, hsufx, Bool.false_eq_true, if_neg, not_false_iff,
              Option.some_inj] at hadd
            have hinv1 : assocLookup body1 key =
                scalarStateOf (some (BodyScalar.str value)) := by
              rw [← hadd, hname, assocLookup_assocSet_self]
              rfl
            have hval : bodyValuesFor key (.field name value nT vT :: rest) =
                BodyScalar.str value :: bodyValuesFor key rest := by
              simp [bodyValuesFor, hkey]
            rw [hval]
            exact ih body1 files0 bodyOut filesOut (some (BodyScalar.str value)) hscan
              hsufRest hinv1
          · have hlook : assocLookup body1 key = assocLookup body0 key :=
              addBodyValue_lookup_other body0 name _ body1 key hadd hkey
            have hval : bodyValuesFor key (.field name value nT vT :: rest) =
                bodyValuesFor key rest := by
              simp [bodyValuesFor, hkey]
            rw [hval]
            exact ih body1 files0 bodyOut filesOut c0 hscan hsufRest (hlook.trans hinv)
    | file name info =>
      by_cases hlen : info.filename.data.length > 200
      · simp only [ingestScan, hlen, if_pos, Option.some_inj] at hscan
        cases hscan
      · simp only [ingestScan, hlen, if_neg, not_false_iff] at hscan
        rcases hadd : addBodyValue body0 name (.file info) with _ | body1
        · rw [hadd] at hscan; cases hscan
        · rw [hadd] at hscan
          by_cases hkey : storageKey name = key
          · have hsufx : strEndsWith name ("[]") = false :=
              hsuf (.file name info) (List.mem_cons_self _ _) name rfl hkey
            have hname : name = key := by simpa [storageKey, hsufx] using hkey
            simp only [addBodyValue, hsufx, Bool.false_eq_true, if_neg, not_false_iff,
              Option.some_inj] at hadd
            have hinv1 : assocLookup body1 key =
                scalarStateOf (some (BodyScalar.file info)) := by
              rw [← hadd, hname, assocLookup_assocSet_self]
              rfl
            have hval : bodyValuesFor key (.file name info :: rest) =
                BodyScalar.file info :: bodyValuesFor key rest := by
              simp [bodyValuesFor, hkey]
            rw [hval]
            exact ih body1 (files0 ++ [info]) bodyOut filesOut
              (some (BodyScalar.file info)) hscan hsufRest hinv1
          · have hlook : assocLookup body1 key = assocLookup body0 key :=
              addBodyValue_lookup_other body0 name _ body1 key hadd hkey
            have hval : bodyValuesFor key (.file name info :: rest) =
                bodyValuesFor key rest := by
              simp [bodyValuesFor, hkey]
            rw [hval]
            exact ih body1 (files0 ++ [info]) bodyOut filesOut c0 hscan hsufRest
              (hlook.trans hinv)
    | fieldsLimit =>
      simp only [ingestScan, Option.some_inj] at hscan
      cases hscan
    | filesLimit =>
      simp only [ingestScan, Option.some_inj] at hscan
      cases hscan

/-- Helper: folding last-write-wins over a list reaches its last element. -/
theorem foldl_replace_getLast? {α : Type} :
    ∀ (vs : List α) (c : Option α),
      vs.foldl (fun _ v => some v) c =
        (match vs.getLast? with | none => c | some v => some v) := by
  intro vs
  induction vs with
  | nil => intro c; rfl
  | cons v t ih =>
    intro c
    cases t with
    | nil => simp [List.foldl]
    | cons b t2 =>
      rw [List.foldl_cons, ih, List.getLast?_cons_cons]
      cases hl : (b :: t2).getLast? with
      | none => exact absurd hl (by simp [List.getLast?_eq_none_iff])
      | some w => rfl

/-- Helper: a settled successful ingestion comes from a successful stream
phase with no truncated file. -/
theorem ingestBody_ok (events : List BusboyEvent) (body : Body)
    (h : ingestBody events = some (.ok body)) :
    ∃ files, ingestScan events [] [] = some (.ok (body, files)) ∧
      files.any (fun f => f.truncated) = false := by
  simp only [ingestBody, Option.map_eq_some'] at h
  obtain ⟨r0, hscan, hr⟩ := h
  cases r0 with
  | error e => cases hr
  | ok p =>
    obtain ⟨b, fs⟩ := p
    dsimp only at hr
    by_cases htr : fs.any (fun f => f.truncated) = true
    · rw [if_pos htr] at hr
      cases hr
    · rw [if_neg htr] at hr
      simp only [Except.ok.injEq] at hr
      rw [hr] at hscan
      exact ⟨fs, hscan, by simpa using htr⟩

/-- C9 counterexample: posting `tags[]=x`, `tags[]=y` and then `tags=z`
parses successfully, but the key `tags` ends up holding the scalar `z` — the
suffixed values `x`, `y` are not accumulated in an array under `tags`,
contradicting the claim's per-name guarantee when suffixed and unsuffixed
names collide on one key. -/
theorem c9_mixed_suffix_loses_array :
    ingestBody mixedTagsEvents =
      some (.ok ([(("tags" : String), BodyValue.scalar (.str ("z")))] : Body)) ∧
    assocLookup ([(("tags" : String), BodyValue.scalar (.str ("z")))] : Body) ("tags") =
      some (BodyValue.scalar (.str ("z"))) ∧
    assocLookup ([(("tags" : String), BodyValue.scalar (.str ("z")))] : Body) ("tags") ≠
      some (BodyValue.array [.str ("x"), .str ("y")]) := by
  refine ⟨rfl, rfl, by decide⟩

/-- C9 (amended): in every successfully parsed body, a storage key used
exclusively by `[]`-suffixed names accumulates all its values, in arrival
order, into an array under the de-suffixed key, and a storage key used
exclusively by unsuffixed names holds a scalar where the last-arriving value
wins. -/
theorem c9_array_suffix_accumulation (events : List BusboyEvent) (body : Body) (key : String)
    (h : ingestBody events = some (.ok body)) :
    ((∀ e ∈ events, ∀ n, busboyEventName e = some n → storageKey n = key →
        strEndsWith n ("[]") = true) →
      assocLookup body key = arrayStateOf (bodyValuesFor key events)) ∧
    ((∀ e ∈ events, ∀ n, busboyEventName e = some n → storageKey n = key →
        strEndsWith n ("[]") = false) →
      assocLookup body key = scalarStateOf (bodyValuesFor key events).getLast?) := by
  obtain ⟨files, hscan, _⟩ := ingestBody_ok events body h
  constructor
  · intro hsuf
    have := ingestScan_suffixed key events [] [] body files [] hscan hsuf rfl
    simpa using this
  · intro hsuf
    have := ingestScan_unsuffixed key events [] [] body files none hscan hsuf rfl
    rw [this, foldl_replace_getLast?]
    cases (bodyValuesFor key events).getLast? <;> rfl

/-- C9 witness: posting `tags[]` twice accumulates both values, in order,
into an array under `tags`. -/
theorem c9_array_suffix_accumulation_witness :
    ingestBody twoTagsEvents =
      some (.ok ([(("tags" : String), BodyValue.array [.str ("x"), .str ("y")])] : Body)) ∧
    assocLookup ([(("tags" : String), BodyValue.array [.str ("x"), .str ("y")])] : Body)
      ("tags") = arrayStateOf (bodyValuesFor ("tags") twoTagsEvents) := by
  refine ⟨rfl, ?_⟩
  refine (c9_array_suffix_accumulation twoTagsEvents _ ("tags") rfl).1 ?_
  intro e he n hn hk
  simp only [twoTagsEvents, List.mem_cons, List.mem_singleton, List.not_mem_nil,
    or_false] at he
  rcases he with rfl | rfl <;>
    (simp only [busboyEventName, Option.some_inj] at hn; rw [← hn]; rfl)

/-- Helper: decoding an uppercase hex digit gives back its value. -/
theorem hexVal_hexDigitChar : ∀ n : Nat, n < 16 → hexVal (hexDigitChar n) = some n := by
  decide

/-- Helper: reading back a percent-escaped byte. -/
theorem readPercentByte_round (b : Nat) (r : List Nat) (hb : b < 256) :
    readPercentByte (percentEncodeByte b ++ r) = some (b, r) := by
  have h1 : b / 16 < 16 := by omega
  have h2 : b % 16 < 16 := by omega
  have e1 : hexVal (hexDigitChar (b / 16)) = some (b / 16) := hexVal_hexDigitChar _ h1
  have e2 : hexVal (hexDigitChar (b % 16)) = some (b % 16) := hexVal_hexDigitChar _ h2
  simp only [percentEncodeByte, List.cons_append, List.nil_append, readPercentByte,
    beq_self_eq_true, if_pos, e1, e2]
  have : 16 * (b / 16) + b % 16 = b := by omega
  rw [this]

/-- Helper: a successful percent-byte read consumes exactly three
characters. -/
theorem readPercentByte_length : ∀ (s : List Nat) (b : Nat) (rest : List Nat),
    readPercentByte s = some (b, rest) → s.length = rest.length + 3 := by
  intro s b rest h
  match s with
  | [] => simp [readPercentByte] at h
  | [a] => simp [readPercentByte] at h
  | [a, a2] => simp [readPercentByte] at h
  | a :: a2 :: a3 :: t =>
    simp only [readPercentByte] at h
    by_cases ha : (a == 37) = true
    · rw [if_pos ha] at h
      rcases h1 : hexVal a2 with _ | x
      · rw [h1] at h
        simp at h
      · rcases h2 : hexVal a3 with _ | y
        · rw [h1, h2] at h
          simp at h
        · rw [h1, h2] at h
          simp only [Option.some_inj] at h
          have hrest : t = rest := congrArg Prod.snd h
          rw [← hrest]
          simp
    · rw [if_neg ha] at h
      cases h

/-- Helper: a successful percent-sequence parse consumes at least three
characters. -/
theorem parsePercentSeq_length (s : List Nat) (v : Nat) (r : List Nat)
    (h : parsePercentSeq s = some (v, r)) : r.length + 3 ≤ s.length := by
  simp only [parsePercentSeq] at h
  rcases h0 : readPercentByte s with _ | p0
  · rw [h0] at h; cases h
  · obtain ⟨b0, r0⟩ := p0
    rw [h0] at h
    have hl0 := readPercentByte_length s b0 r0 h0
    simp only [] at h
    by_cases hb : b0 < 128
    · rw [if_pos hb] at h
      have hr : r0 = r := congrArg Prod.snd (Option.some_inj.1 h)
      have hlr : r0.length = r.length := by rw [hr]
      omega
    · rw [if_neg hb] at h
      by_cases hb2 : (194 ≤ b0 && b0 ≤ 223) = true
      · rw [if_pos hb2] at h
        rcases h1 : readPercentByte r0 with _ | p1
        · rw [h1] at h; cases h
        · obtain ⟨b1, r1⟩ := p1
          rw [h1] at h
          have hl1 := readPercentByte_length r0 b1 r1 h1
          simp only [] at h
          by_cases hc1 : isContByte b1 = true
          · rw [if_pos hc1] at h
            have hr : r1 = r := congrArg Prod.snd (Option.some_inj.1 h)
            have hlr : r1.length = r.length := by rw [hr]
            omega
          · rw [if_neg hc1] at h; cases h
      · rw [if_neg hb2] at h
        by_cases hb3 : (224 ≤ b0 && b0 ≤ 239) = true
        · rw [if_pos hb3] at h
          rcases h1 : readPercentByte r0 with _ | p1
          · rw [h1] at h; cases h
          · obtain ⟨b1, r1⟩ := p1
            rw [h1] at h
            have hl1 := readPercentByte_length r0 b1 r1 h1
            simp only [] at h
            rcases h2 : readPercentByte r1 with _ | p2
            · rw [h2] at h; cases h
            · obtain ⟨b2, r2⟩ := p2
              rw [h2] at h
              have hl2 := readPercentByte_length r1 b2 r2 h2
              simp only [] at h
              by_cases hc1 : (isContByte b1 && isContByte b2) = true
              · rw [if_pos hc1] at h
                by_cases hv : (2048 ≤ (b0 - 224) * 4096 + (b1 - 128) * 64 + (b2 - 128) &&
                    ((b0 - 224) * 4096 + (b1 - 128) * 64 + (b2 - 128) < 55296 ||
                      57344 ≤ (b0 - 224) * 4096 + (b1 - 128) * 64 + (b2 - 128))) = true
                · rw [if_pos hv] at h
                  have hr : r2 = r := congrArg Prod.snd (Option.some_inj.1 h)
                  have hlr : r2.length = r.length := by rw [hr]
                  omega
                · rw [if_neg hv] at h; cases h
              · rw [if_neg hc1] at h; cases h
        · rw [if_neg hb3] at h
          by_cases hb4 : (240 ≤ b0 && b0 ≤ 244) = true
          · rw [if_pos hb4] at h
            rcases h1 : readPercentByte r0 with _ | p1
            · rw [h1] at h; cases h
            · obtain ⟨b1, r1⟩ := p1
              rw [h1] at h
              have hl1 := readPercentByte_length r0 b1 r1 h1
              simp only [] at h
              rcases h2 : readPercentByte r1 with _ | p2
              · rw [h2] at h; cases h
              · obtain ⟨b2, r2⟩ := p2
                rw [h2] at h
                have hl2 := readPercentByte_length r1 b2 r2 h2
                simp only [] at h
                rcases h3 : readPercentByte r2 with _ | p3
                · rw [h3] at h; cases h
                · obtain ⟨b3, r3⟩ := p3
                  rw [h3] at h
                  have hl3 := readPercentByte_length r2 b3 r3 h3
                  simp only [] at h
                  by_cases hc1 : (isContByte b1 && isContByte b2 && isContByte b3) = true
                  · rw [if_pos hc1] at h
                    by_cases hv : (65536 ≤ (b0 - 240) * 262144 + (b1 - 128) * 4096 +
                        (b2 - 128) * 64 + (b3 - 128) &&
                        (b0 - 240) * 262144 + (b1 - 128) * 4096 + (b2 - 128) * 64 +
                          (b3 - 128) ≤ 1114111) = true
                    · rw [if_pos hv] at h
                      have hr : r3 = r := congrArg Prod.snd (Option.some_inj.1 h)
                      have hlr : r3.length = r.length := by rw [hr]
                      omega
                    · rw [if_neg hv] at h; cases h
                  · rw [if_neg hc1] at h; cases h
          · rw [if_neg hb4] at h; cases h

/-- Helper: percent-decoding reads back the percent-escaped UTF-8 encoding of
any scalar value, consuming exactly its escapes. -/
theorem parsePercentSeq_enc (c : Nat) (r : List Nat) (hc : ScalarValue c) :
    parsePercentSeq ((utf8EncodeChar c).flatMap percentEncodeByte ++ r) = some (c, r) := by
  obtain ⟨hlt, hsur⟩ := hc
  by_cases h1 : c < 128
  · have henc : utf8EncodeChar c = [c] := by simp [utf8EncodeChar, h1]
    rw [henc]
    simp only [List.flatMap_cons, List.flatMap_nil, List.append_nil]
    simp only [parsePercentSeq, readPercentByte_round c r (by omega)]
    rw [if_pos h1]
  · by_cases h2 : c < 2048
    · have henc : utf8EncodeChar c = [192 + c / 64, 128 + c % 64] := by
        simp [utf8EncodeChar, h1, h2]
      rw [henc]
      simp only [List.flatMap_cons, List.flatMap_nil, List.append_nil, List.append_assoc]
      simp only [parsePercentSeq, readPercentByte_round _ _ (show 192 + c / 64 < 256 by omega)]
      rw [if_neg (show ¬(192 + c / 64 < 128) by omega)]
      rw [if_pos (show (194 ≤ 192 + c / 64 && 192 + c / 64 ≤ 223) = true by
        simp only [Bool.and_eq_true, decide_eq_true_eq]
        omega)]
      simp only [readPercentByte_round _ _ (show 128 + c % 64 < 256 by omega)]
      rw [if_pos (show isContByte (128 + c % 64) = true by
        simp only [isContByte, Bool.and_eq_true, decide_eq_true_eq]
        omega)]
      have harith : (192 + c / 64 - 192) * 64 + (128 + c % 64 - 128) = c := by omega
      rw [harith]
    · by_cases h3 : c < 65536
      · have henc : utf8EncodeChar c =
            [224 + c / 4096, 128 + (c / 64) % 64, 128 + c % 64] := by
          simp [utf8EncodeChar, h1, h2, h3]
        rw [henc]
        simp only [List.flatMap_cons, List.flatMap_nil, List.append_nil, List.append_assoc]
        simp only [parsePercentSeq,
          readPercentByte_round _ _ (show 224 + c / 4096 < 256 by omega)]
        rw [if_neg (show ¬(224 + c / 4096 < 128) by omega)]
        rw [if_neg (show ¬((194 ≤ 224 + c / 4096 && 224 + c / 4096 ≤ 223) = true) by
          simp only [Bool.and_eq_true, decide_eq_true_eq]
          omega)]
        rw [if_pos (show (224 ≤ 224 + c / 4096 && 224 + c / 4096 ≤ 239) = true by
          simp only [Bool.and_eq_true, decide_eq_true_eq]
          omega)]
        simp only [readPercentByte_round _ _ (show 128 + (c / 64) % 64 < 256 by omega)]
        simp only [readPercentByte_round _ _ (show 128 + c % 64 < 256 by omega)]
        rw [if_pos (show (isContByte (128 + (c / 64) % 64) && isContByte (128 + c % 64)) =
            true by
          simp only [isContByte, Bool.and_eq_true, decide_eq_true_eq]
          omega)]
        have harith : (224 + c / 4096 - 224) * 4096 + (128 + (c / 64) % 64 - 128) * 64 +
            (128 + c % 64 - 128) = c := by omega
        rw [harith]
        rw [if_pos (show (2048 ≤ c && (c < 55296 || 57344 ≤ c)) = true by
          simp only [Bool.and_eq_true, Bool.or_eq_true, decide_eq_true_eq]
          omega)]
      · have henc : utf8EncodeChar c =
            [240 + c / 262144, 128 + (c / 4096) % 64, 128 + (c / 64) % 64, 128 + c % 64] := by
          simp [utf8EncodeChar, h1, h2, h3]
        rw [henc]
        simp only [List.flatMap_cons, List.flatMap_nil, List.append_nil, List.append_assoc]
        simp only [parsePercentSeq,
          readPercentByte_round _ _ (show 240 + c / 262144 < 256 by omega)]
        rw [if_neg (show ¬(240 + c / 262144 < 128) by omega)]
        rw [if_neg (show ¬((194 ≤ 240 + c / 262144 && 240 + c / 262144 ≤ 223) = true) by
          simp only [Bool.and_eq_true, decide_eq_true_eq]
          omega)]
        rw [if_neg (show ¬((224 ≤ 240 + c / 262144 && 240 + c / 262144 ≤ 239) = true) by
          simp only [Bool.and_eq_true, decide_eq_true_eq]
          omega)]
        rw [if_pos (show (240 ≤ 240 + c / 262144 && 240 + c / 262144 ≤ 244) = true by
          simp only [Bool.and_eq_true, decide_eq_true_eq]
          omega)]
        simp only [readPercentByte_round _ _ (show 128 + (c / 4096) % 64 < 256 by omega)]
        simp only [readPercentByte_round _ _ (show 128 + (c / 64) % 64 < 256 by omega)]
        simp only [readPercentByte_round _ _ (show 128 + c % 64 < 256 by omega)]
        rw [if_pos (show (isContByte (128 + (c / 4096) % 64) &&
            isContByte (128 + (c / 64) % 64) && isContByte (128 + c % 64)) = true by
          simp only [isContByte, Bool.and_eq_true, decide_eq_true_eq]
          omega)]
        have harith : (240 + c / 262144 - 240) * 262144 + (128 + (c / 4096) % 64 - 128) * 4096 +
            (128 + (c / 64) % 64 - 128) * 64 + (128 + c % 64 - 128) = c := by omega
        rw [harith]
        rw [if_pos (show (65536 ≤ c && c ≤ 1114111) = true by
          simp only [Bool.and_eq_true, decide_eq_true_eq]
          omega)]

/-- Helper: every character encodes to a non-empty string. -/
theorem encodeChar_ne_nil (c : Nat) : encodeChar c ≠ [] := by
  simp only [encodeChar]
  by_cases h : isUriUnreserved c = true
  · simp [h]
  · simp only [h, Bool.false_eq_true, if_neg, not_false_iff]
    simp only [utf8EncodeChar]
    by_cases h1 : c < 128
    · simp [h1, percentEncodeByte]
    · by_cases h2 : c < 2048
      · simp [h1, h2, percentEncodeByte]
      · by_cases h3 : c < 65536
        · simp [h1, h2, h3, percentEncodeByte]
        · simp [h1, h2, h3, percentEncodeByte]

/-- Helper: one decoding step over one encoded character. -/
theorem decodeURIAux_encChar (f : Nat) (c : Nat) (r : List Nat) (hc : ScalarValue c) :
    decodeURIAux (f + 1) (encodeChar c ++ r) =
      (decodeURIAux f r).map (fun t => c :: t) := by
  by_cases h : isUriUnreserved c = true
  · have henc : encodeChar c = [c] := by simp [encodeChar, h]
    rw [henc]
    have hc37 : (c == 37) = false := by
      have hne : c ≠ 37 := by
        intro hEq
        rw [hEq] at h
        simp [isUriUnreserved] at h
      simpa using hne
    simp only [List.cons_append, List.nil_append, decodeURIAux, hc37, Bool.false_eq_true,
      if_neg, not_false_iff]
    rfl
  · have henc : encodeChar c = (utf8EncodeChar c).flatMap percentEncodeByte := by
      simp [encodeChar, h]
    rw [henc]
    obtain ⟨b0, bs, hbytes⟩ : ∃ b0 bs, utf8EncodeChar c = b0 :: bs := by
      simp only [utf8EncodeChar]
      by_cases h1 : c < 128
      · exact ⟨c, [], by simp [h1]⟩
      · by_cases h2 : c < 2048
        · exact ⟨192 + c / 64, [128 + c % 64], by simp [h1, h2]⟩
        · by_cases h3 : c < 65536
          · exact ⟨224 + c / 4096, [128 + c / 64 % 64, 128 + c % 64], by simp [h1, h2, h3]⟩
          · exact ⟨240 + c / 262144, [128 + c / 4096 % 64, 128 + c / 64 % 64, 128 + c % 64],
              by simp [h1, h2, h3]⟩
    have hp := parsePercentSeq_enc c r hc
    rw [hbytes] at hp ⊢
    simp only [List.flatMap_cons, percentEncodeByte, List.cons_append, List.append_assoc] at hp ⊢
    simp only [decodeURIAux, beq_self_eq_true, if_pos, hp]

/-- Helper: the decoding loop is insensitive to the exact fuel once it covers
the input length. -/
theorem decodeURIAux_fuel : ∀ (f1 f2 : Nat) (s : List Nat), s.length ≤ f1 → s.length ≤ f2 →
    decodeURIAux f1 s = decodeURIAux f2 s := by
  intro f1
  induction f1 with
  | zero =>
    intro f2 s h1 h2
    have hs : s = [] := List.length_eq_zero.1 (by omega)
    rw [hs]
    cases f2 <;> rfl
  | succ f ih =>
    intro f2 s h1 h2
    cases s with
    | nil => cases f2 <;> rfl
    | cons c rest =>
      have hlen2 : rest.length + 1 ≤ f2 := by simpa using h2
      have hlen1 : rest.length + 1 ≤ f + 1 := by simpa using h1
      obtain ⟨f2', rfl⟩ : ∃ f2', f2 = f2' + 1 := ⟨f2 - 1, by omega⟩
      simp only [decodeURIAux]
      by_cases hc : (c == 37) = true
      · rw [if_pos hc, if_pos hc]
        rcases hp : parsePercentSeq (c :: rest) with _ | p
        · rfl
        · obtain ⟨v, r⟩ := p
          have hl := parsePercentSeq_length _ _ _ hp
          simp only [List.length_cons] at hl
          simp only []
          rw [ih f2' r (by omega) (by omega)]
      · rw [if_neg hc, if_neg hc]
        rw [ih f2' rest (by omega) (by omega)]

/-- Helper: decoding reads back the encoding of any scalar-value string,
leaving any suffix to be decoded on its own. -/
theorem decode_encode : ∀ (s r : List Nat), (∀ c ∈ s, ScalarValue c) →
    decodeURIComponentL (encodeURIComponentL s ++ r) =
      (decodeURIComponentL r).map (fun t => s ++ t) := by
  intro s
  induction s with
  | nil =>
    intro r _
    simp only [encodeURIComponentL, List.flatMap_nil, List.nil_append]
    cases hd : decodeURIComponentL r <;> simp
  | cons c t ih =>
    intro r h
    have hc : ScalarValue c := h c (List.mem_cons_self c t)
    have ht : ∀ c2 ∈ t, ScalarValue c2 := fun c2 h2 => h c2 (List.mem_cons_of_mem c h2)
    simp only [encodeURIComponentL, List.flatMap_cons, List.append_assoc]
    have key : ∀ f, (t.flatMap encodeChar ++ r).length ≤ f →
        decodeURIAux (f + 1) (encodeChar c ++ (t.flatMap encodeChar ++ r)) =
          (decodeURIComponentL (t.flatMap encodeChar ++ r)).map (fun u => c :: u) := by
      intro f hf
      rw [decodeURIAux_encChar f c _ hc]
      rw [decodeURIAux_fuel f (t.flatMap encodeChar ++ r).length _ hf (le_refl _)]
      rfl
    have htot : (encodeChar c ++ (t.flatMap encodeChar ++ r)).length =
        ((encodeChar c ++ (t.flatMap encodeChar ++ r)).length - 1) + 1 := by
      have hne := encodeChar_ne_nil c
      have : 1 ≤ (encodeChar c).length := by
        cases henc : encodeChar c with
        | nil => exact absurd henc hne
        | cons a t2 => simp
      simp only [List.length_append]
      omega
    have hstep : decodeURIComponentL (encodeChar c ++ (t.flatMap encodeChar ++ r)) =
        (decodeURIComponentL (t.flatMap encodeChar ++ r)).map (fun u => c :: u) := by
      have h0 : decodeURIComponentL (encodeChar c ++ (t.flatMap encodeChar ++ r)) =
          decodeURIAux ((encodeChar c ++ (t.flatMap encodeChar ++ r)).length)
            (encodeChar c ++ (t.flatMap encodeChar ++ r)) := rfl
      rw [h0, htot]
      refine key _ ?_
      have hne := encodeChar_ne_nil c
      have : 1 ≤ (encodeChar c).length := by
        cases henc : encodeChar c with
        | nil => exact absurd henc hne
        | cons a t2 => simp
      simp only [List.length_append]
      omega
    rw [hstep]
    have iht := ih r ht
    simp only [encodeURIComponentL] at iht
    rw [iht]
    cases decodeURIComponentL r <;> simp

/-- Helper: decoding exactly inverts encoding on scalar-value strings. -/
theorem decode_encode_self (s : List Nat) (h : ∀ c ∈ s, ScalarValue c) :
    decodeURIComponentL (encodeURIComponentL s) = some s := by
  have := decode_encode s [] h
  simpa [decodeURIComponentL, decodeURIAux] using this

/-- Helper: UTF-8 bytes of an in-range code point are bytes. -/
theorem utf8EncodeChar_lt (c : Nat) (hc : c < 1114112) :
    ∀ b ∈ utf8EncodeChar c, b < 256 := by
  intro b hb
  simp only [utf8EncodeChar] at hb
  by_cases h1 : c < 128
  · simp [h1] at hb
    omega
  · by_cases h2 : c < 2048
    · simp [h1, h2] at hb
      rcases hb with hb | hb <;> omega
    · by_cases h3 : c < 65536
      · simp [h1, h2, h3] at hb
        rcases hb with hb | hb | hb <;> omega
      · simp [h1, h2, h3] at hb
        rcases hb with hb | hb | hb | hb <;> omega

/-- Helper: a character from the encoder's output alphabet is neither `;`
nor `=` nor whitespace. -/
theorem encoder_alphabet_safe (d : Nat)
    (hd : (65 ≤ d ∧ d ≤ 90) ∨ (97 ≤ d ∧ d ≤ 122) ∨ (48 ≤ d ∧ d ≤ 57) ∨ d = 45 ∨ d = 95 ∨
      d = 46 ∨ d = 33 ∨ d = 126 ∨ d = 42 ∨ d = 39 ∨ d = 40 ∨ d = 41 ∨ d = 37 ∨
      (65 ≤ d ∧ d ≤ 70)) :
    d ≠ 59 ∧ d ≠ 61 ∧ isJsWhitespace d = false := by
  refine ⟨by omega, by omega, ?_⟩
  cases hw : isJsWhitespace d
  · rfl
  · exfalso
    simp only [isJsWhitespace, Bool.or_eq_true, Bool.and_eq_true, decide_eq_true_eq,
      beq_iff_eq] at hw
    omega

/-- Helper: every character the encoder outputs is safe: never `;`, `=` or
whitespace. -/
theorem encodeURIComponentL_safe (s : List Nat) (h : ∀ c ∈ s, ScalarValue c) :
    ∀ d ∈ encodeURIComponentL s, d ≠ 59 ∧ d ≠ 61 ∧ isJsWhitespace d = false := by
  intro d hd
  simp only [encodeURIComponentL, List.mem_flatMap] at hd
  obtain ⟨c, hcs, hdc⟩ := hd
  have hc := h c hcs
  simp only [encodeChar] at hdc
  by_cases hu : isUriUnreserved c = true
  · rw [if_pos hu] at hdc
    simp only [List.mem_singleton] at hdc
    subst hdc
    simp only [isUriUnreserved, Bool.or_eq_true, Bool.and_eq_true, decide_eq_true_eq,
      beq_iff_eq] at hu
    refine encoder_alphabet_safe d (by tauto)
  · rw [if_neg hu] at hdc
    simp only [List.mem_flatMap] at hdc
    obtain ⟨b, hbs, hdb⟩ := hdc
    have hblt : b < 256 := utf8EncodeChar_lt c hc.1 b hbs
    simp only [percentEncodeByte, List.mem_cons, List.not_mem_nil, or_false] at hdb
    refine encoder_alphabet_safe d ?_
    rcases hdb with rfl | rfl | rfl
    · tauto
    · simp only [hexDigitChar]
      split <;> omega
    · simp only [hexDigitChar]
      split <;> omega

/-- Helper: splitting a string not containing the separator. -/
theorem splitOnChar_not_mem (sep : Nat) :
    ∀ (s : List Nat), sep ∉ s → splitOnChar sep s = [s] := by
  intro s
  induction s with
  | nil => intro _; rfl
  | cons c rest ih =>
    intro h
    have hc : (c == sep) = false := by
      simp only [beq_eq_false_iff_ne, ne_eq]
      intro hEq
      exact h (by simp [hEq])
    have hrest : sep ∉ rest := fun hr => h (List.mem_cons_of_mem c hr)
    simp only [splitOnChar, hc, Bool.false_eq_true, if_neg, not_false_iff, ih hrest]

/-- Helper: splitting around the first separator occurrence. -/
theorem splitOnChar_append (sep : Nat) :
    ∀ (a b : List Nat), sep ∉ a →
      splitOnChar sep (a ++ sep :: b) = a :: splitOnChar sep b := by
  intro a
  induction a with
  | nil =>
    intro b _
    simp only [List.nil_append, splitOnChar, beq_self_eq_true, if_pos]
  | cons c rest ih =>
    intro b h
    have hc : (c == sep) = false := by
      simp only [beq_eq_false_iff_ne, ne_eq]
      intro hEq
      exact h (by simp [hEq])
    have hrest : sep ∉ rest := fun hr => h (List.mem_cons_of_mem c hr)
    simp only [List.cons_append, splitOnChar, hc, Bool.false_eq_true, if_neg,
      not_false_iff]
    rw [show (rest.append (sep :: b)) = rest ++ sep :: b from rfl, ih b hrest]

/-- Helper: trimming is the identity on whitespace-free strings. -/
theorem jsTrim_eq_self (s : List Nat) (h : ∀ c ∈ s, isJsWhitespace c = false) :
    jsTrim s = s := by
  have h1 : s.dropWhile isJsWhitespace = s := by
    cases s with
    | nil => rfl
    | cons c rest => simp [List.dropWhile_cons, h c (List.mem_cons_self c rest)]
  have h2 : s.reverse.dropWhile isJsWhitespace = s.reverse := by
    cases hs : s.reverse with
    | nil => rfl
    | cons c rest =>
      have hcs : c ∈ s := by
        have : c ∈ s.reverse := by
          rw [hs]
          exact List.mem_cons_self _ _
        simpa using this
      simp [List.dropWhile_cons, h c hcs]
  simp only [jsTrim, h1, h2, List.reverse_reverse]

/-- Helper: a list is a `isPrefixOf`-prefix of itself followed by
anything. -/
theorem isPrefixOf_append_self : ∀ (p k : List Nat), p.isPrefixOf (p ++ k) = true := by
  intro p
  induction p with
  | nil => intro k; cases k <;> rfl
  | cons a t ih =>
    intro k
    show (a == a && t.isPrefixOf (t ++ k)) = true
    simp [ih k]

/-- Helper: stripping the marker it just added. -/
theorem stripHostMarker_append (k : List Nat) : stripHostMarker (hostMarker ++ k) = k := by
  simp only [stripHostMarker, isPrefixOf_append_self, if_pos]
  exact List.drop_left hostMarker k

/-- C8 counterexample: `setCookie("session", "")` serializes the cookie pair
`__Host-session=`, which the server's own cookie parser rejects as a
malformed `Cookie` header (empty part, line 143) rather than round-tripping
the pair — so the claim fails for the empty value. -/
theorem c8_empty_value_rejected :
    parseCookiePairs (setCookiePair (codesOf ("session")) []) =
      .error cookieMalformedMessage := by
  rfl

/-- C8 (amended): for every key/value pair with a non-empty value, both made
of Unicode scalar values, the cookie pair written by `setCookie` (`__Host-`
marker, both parts percent-encoded) is parsed back by the server's cookie
parser (split on `;`, trim, percent-decode, strip the marker) to exactly the
same key and value; with an empty value the serialized pair is instead
rejected as a malformed `Cookie` header. -/
theorem c8_cookie_roundtrip (k v : List Nat)
    (hv : v ≠ [])
    (hks : ∀ c ∈ k, ScalarValue c) (hvs : ∀ c ∈ v, ScalarValue c) :
    parseCookiePairs (setCookiePair k v) = .ok [(k, v)] := by
  have hsafeK := encodeURIComponentL_safe k hks
  have hsafeV := encodeURIComponentL_safe v hvs
  have hsafeH : ∀ d ∈ hostMarker, d ≠ 59 ∧ d ≠ 61 ∧ isJsWhitespace d = false := by decide
  have hsafeA : ∀ d ∈ hostMarker ++ encodeURIComponentL k,
      d ≠ 59 ∧ d ≠ 61 ∧ isJsWhitespace d = false := by
    intro d hd
    rcases List.mem_append.1 hd with hd | hd
    · exact hsafeH d hd
    · exact hsafeK d hd
  have hpair : setCookiePair k v =
      (hostMarker ++ encodeURIComponentL k) ++ 61 :: encodeURIComponentL v := by
    simp [setCookiePair, List.append_assoc]
  have h59 : (59 : Nat) ∉ setCookiePair k v := by
    rw [hpair]
    intro hd
    rcases List.mem_append.1 hd with hd | hd
    · exact (hsafeA 59 hd).1 rfl
    · rcases List.mem_cons.1 hd with hd | hd
      · exact absurd hd (by decide)
      · exact (hsafeV 59 hd).1 rfl
  have hnows : ∀ c ∈ setCookiePair k v, isJsWhitespace c = false := by
    intro c hc
    rw [hpair] at hc
    rcases List.mem_append.1 hc with hc | hc
    · exact (hsafeA c hc).2.2
    · rcases List.mem_cons.1 hc with hc | hc
      · rw [hc]
        decide
      · exact (hsafeV c hc).2.2
  have htrim : jsTrim (setCookiePair k v) = setCookiePair k v := jsTrim_eq_self _ hnows
  have hne : (setCookiePair k v == ([] : List Nat)) = false := by
    have : setCookiePair k v ≠ [] := by
      rw [hpair]
      simp [hostMarker]
    simpa using this
  have h61A : (61 : Nat) ∉ hostMarker ++ encodeURIComponentL k := fun hd =>
    (hsafeA 61 hd).2.1 rfl
  have h61V : (61 : Nat) ∉ encodeURIComponentL v := fun hd => (hsafeV 61 hd).2.1 rfl
  have hsplit61 : splitOnChar 61 (setCookiePair k v) =
      [hostMarker ++ encodeURIComponentL k, encodeURIComponentL v] := by
    rw [hpair, splitOnChar_append 61 _ _ h61A, splitOnChar_not_mem 61 _ h61V]
  have htrimA : jsTrim (hostMarker ++ encodeURIComponentL k) =
      hostMarker ++ encodeURIComponentL k :=
    jsTrim_eq_self _ (fun c hc => (hsafeA c hc).2.2)
  have htrimV : jsTrim (encodeURIComponentL v) = encodeURIComponentL v :=
    jsTrim_eq_self _ (fun c hc => (hsafeV c hc).2.2)
  have hdecA : decodeURIComponentL (hostMarker ++ encodeURIComponentL k) =
      some (hostMarker ++ k) := by
    have henc : hostMarker ++ encodeURIComponentL k = encodeURIComponentL (hostMarker ++ k) := by
      simp only [encodeURIComponentL, List.flatMap_append]
      congr 1
    rw [henc]
    refine decode_encode_self _ ?_
    intro c hc
    rcases List.mem_append.1 hc with hc | hc
    · have hall : ∀ c2 ∈ hostMarker, ScalarValue c2 := by decide
      exact hall c hc
    · exact hks c hc
  have hdecV : decodeURIComponentL (encodeURIComponentL v) = some v := decode_encode_self v hvs
  have hkeyne : (hostMarker ++ k == ([] : List Nat)) = false := by
    have : hostMarker ++ k ≠ [] := by simp [hostMarker]
    simpa using this
  have hvne : (v == ([] : List Nat)) = false := by simpa using hv
  rw [parseCookiePairs, splitOnChar_not_mem 59 _ h59]
  simp only [parseCookiePairsGo, htrim, hne, Bool.false_eq_true, if_neg, not_false_iff,
    hsplit61, List.map_cons, List.map_nil, htrimA, htrimV, hdecA, hdecV, collectSomes,
    Option.map_some', hkeyne, hvne, Bool.or_self, stripHostMarker_append, Except.map]

/-- C8 witness: the pair `session` ↦ `dé /` (exercising unreserved
characters, a two-byte UTF-8 character, a space and a slash) round-trips
through `setCookie` and the cookie parser. -/
theorem c8_cookie_roundtrip_witness :
    (([100, 233, 32, 47] : List Nat) ≠ [] ∧
      (∀ c ∈ codesOf ("session"), ScalarValue c) ∧
      (∀ c ∈ ([100, 233, 32, 47] : List Nat), ScalarValue c)) ∧
    parseCookiePairs (setCookiePair (codesOf ("session")) [100, 233, 32, 47]) =
      .ok [(codesOf ("session"), [100, 233, 32, 47])] :=
  ⟨⟨by decide, by decide, by decide⟩,
    c8_cookie_roundtrip (codesOf ("session")) [100, 233, 32, 47]
      (by decide) (by decide) (by decide)⟩

end Server
